import Mathlib

/-!
Shallow embedding of the core data structures and algorithms of the supereight2
multi-resolution octree mapping library, together with proofs checking its
natural-language specification against the code.

Modelling conventions:

* C++ `float`/`double` quantities (occupancy log-odds, weights) are modelled as
  exact integers (`ℤ`); the fractional literals `0.9` and `0.95` appearing in
  threshold comparisons are modelled exactly by cross-multiplication, e.g.
  `x ≥ 0.9 * y` becomes `10 * x ≥ 9 * y`.  Interpolation weights are exact
  rationals (`ℚ`).
* Raw pointers are modelled as indices (`ℕ`) into an explicit heap
  (`List (List OccData)`); `new` appends a fresh array to the heap, `delete[]`
  drops the index from the data structures (the heap entry becomes garbage).
  This makes the aliasing between the `data_`, `min_data_` and `max_data_`
  stacks of an occupancy block observable.
* `std::vector<DataType*>` becomes `List ℕ` (of heap indices), `std::set`
  becomes a duplicate-free `List ℕ` (insertion order; the C++ iteration order
  over pointer values is allocation dependent and not semantically relevant).
* Octree lookups performed through `se::fetcher` and image/geometry code are
  abstracted as oracle parameters where the claims do not depend on their
  internals.

Code that the claims depend on but whose implementation is not part of the
sources (only declarations or callers are) is modelled from the specification;
each such definition carries a doc comment starting with `Modelled from the
spec:`.
-/

namespace SE2

/-- Occupancy voxel data: the field facet of `Data<Field::Occupancy, _, _>`.
Modelled from the spec: the definition of `FieldData<Field::Occupancy>`
(members `occupancy`, `weight`, `observed`, defaults 0/0/false) is not under
the provided sources; it is reconstructed from spec section 3.4 and the uses in
`data.hpp` and the updater. Occupancy and weight are exact integers standing
for the C++ floats. -/
structure OccData where
  occupancy : ℤ
  weight : ℤ
  observed : Bool
deriving DecidableEq, Repr

/-- The default-constructed `Data<Field::Occupancy>` value (unknown space). -/
def defaultOccData : OccData := { occupancy := 0, weight := 0, observed := false }

/-- `get_field` for occupancy data from `data.hpp` lines 122-126:
`data.field.occupancy * data.field.weight`. -/
def fieldVal (d : OccData) : ℤ := d.occupancy * d.weight

/-- `is_valid` from `data.hpp` lines 105-109 together with
`FieldData::valid() ⇔ weight > 0` (spec section 3.4). -/
def isValidData (d : OccData) : Bool := 0 < d.weight

/-- `octantops::size_to_scale` from `scale_impl.hpp` lines 15-19: the base-2
logarithm of a power-of-two octant size. Implemented with a fuel argument so
that it evaluates by kernel reduction. -/
def log2Aux : ℕ → ℕ → ℕ
  | 0, _ => 0
  | fuel + 1, n => if n ≤ 1 then 0 else log2Aux fuel (n / 2) + 1

/-- `octantops::size_to_scale(octant_size) = log2(octant_size)`. -/
def sizeToScale (octant_size : ℕ) : ℤ := (log2Aux octant_size octant_size : ℤ)

/-! ### Identifier facet (claim C9)

`IdData<Id::On>::update` from `data_id_impl.hpp` lines 12-19 (identical to
`SemanticData<Semantics::On>::update` in `data_semantics_impl.hpp`). -/

/-- Modelled from the spec: the constant `g_not_segmented` is declared in a
header not under the provided sources; per the doc comment of
`SemanticData::update` ("if segment_id is non-zero") and the spec table in
section 3.4 (`0 = "no identifier"`) its value is 0. -/
def g_not_segmented : ℕ := 0

/-- `IdData<Id::On>::update` from `data_id_impl.hpp` lines 12-19: overwrite the
stored id and report true unless the input is `g_not_segmented`. Returns the
new stored id and the reported flag. -/
def idUpdate (segment_id input : ℕ) : ℕ × Bool :=
  if input ≠ g_not_segmented then (input, true) else (segment_id, false)

/-- Repeated application of `idUpdate` over a list of inputs. -/
def idUpdates (segment_id : ℕ) (inputs : List ℕ) : ℕ :=
  inputs.foldl (fun s i => (idUpdate s i).1) segment_id

/-! ### Occupancy node data query (claim C10) -/

/-- `NodeData<Data<Field::Occupancy>, Res::Multi>::data()` from `node.hpp`
lines 52-57: return `max_data` if it is observed and the node is a leaf, the
default data otherwise. The `isLeaf()` test (from the OctantBase interface,
whose implementation is not under the provided sources) is abstracted as the
boolean argument `leaf`. -/
def nodeDataQuery (max_data : OccData) (leaf : Bool) : OccData :=
  if max_data.observed = true ∧ leaf = true then max_data else defaultOccData

/-! ### Node child mask (claim C8)

`Node::setChild` from `node_impl.hpp` lines 65-78. -/

/-- A node's child bookkeeping: the 8-bit child-present mask and the eight
child slots (`children_ptr_`), with children as optional heap indices. The
mask lives in `OctantBase`. -/
structure CNode where
  child_mask : ℕ
  children : List (Option ℕ)
deriving DecidableEq, Repr

/-- A fresh node: the constructors in `node_impl.hpp` fill `children_ptr_`
with nullptr; the child mask starts at zero. -/
def newNode : CNode := { child_mask := 0, children := List.replicate 8 none }

/-- `Node::setChild` from `node_impl.hpp` lines 65-78: set or clear bit
`child_idx` of the mask according to whether the pointer is null, then store
the pointer. `child_mask &= ~(1 << child_idx)` on the 8-bit mask is written as
a conjunction with the 8-bit complement `255 ^^^ (1 <<< child_idx)`. -/
def setChild (n : CNode) (child_idx : ℕ) (child_ptr : Option ℕ) : CNode :=
  { child_mask :=
      match child_ptr with
      | some _ => n.child_mask ||| (1 <<< child_idx)
      | none => n.child_mask &&& (255 ^^^ (1 <<< child_idx)),
    children := n.children.set child_idx child_ptr }

/-- A sequence of `setChild` operations applied to a node. -/
def runSetChildOps (n : CNode) (ops : List (ℕ × Option ℕ)) : CNode :=
  ops.foldl (fun m p => setChild m p.1 p.2) n

/-- Modelled from the spec: a node is a leaf when all its child slots are null
(spec section 3.3; the `OctantBase::isLeaf` implementation is not under the
provided sources). -/
def nodeIsLeaf (n : CNode) : Bool := n.children.all (fun c => c.isNone)

/-- The child-mask invariant: eight child slots, and bit `k` of the mask is
set exactly when slot `k` holds a non-null pointer. -/
def ChildMaskInv (n : CNode) : Prop :=
  n.children.length = 8 ∧
    ∀ k, n.child_mask.testBit k = (n.children.getD k none).isSome

/-! ### Integration scale selection (claim C2)

`Updater<Occupancy, Multi>::updateBlock`, scale computation,
`multires_ofusion_updater_impl.hpp` lines 320-341. -/

/-- Line 320: `last_scale = (min_scale == -1) ? 0 : current_scale`. -/
def lastScaleOf (min_scale current_scale : ℤ) : ℤ :=
  if min_scale = -1 then 0 else current_scale

/-- Lines 327-332: the minimum integration scale. `0.95 * log_odd_min` is
compared exactly: `occ < 0.95 * m` becomes `100 * occ < 95 * m`. -/
def minIntegrationScale (low_variance : Bool) (min_scale : ℤ)
    (max_data_occupancy log_odd_min : ℤ) (fs_integr_scale last_scale : ℤ) : ℤ :=
  if low_variance = true ∧ (min_scale = -1 ∨ 100 * max_data_occupancy < 95 * log_odd_min) then
    fs_integr_scale
  else
    max 0 (last_scale - 1)

/-- Lines 333-335: the maximum integration scale. -/
def maxIntegrationScale (min_scale max_scale last_scale : ℤ) : ℤ :=
  if min_scale = -1 then max_scale else min max_scale (last_scale + 1)

/-- Lines 338-339: the final (recommended) integration scale
`min(max(min_integration_scale, computed_integration_scale), max_integration_scale)`. -/
def recommendedIntegrationScale (computed : ℤ) (low_variance : Bool) (min_scale : ℤ)
    (max_data_occupancy log_odd_min : ℤ) (fs_integr_scale : ℤ)
    (last_scale max_scale : ℤ) : ℤ :=
  min (max (minIntegrationScale low_variance min_scale max_data_occupancy log_odd_min
              fs_integr_scale last_scale)
         computed)
    (maxIntegrationScale min_scale max_scale last_scale)

/-! ### Multi-resolution occupancy block (claims C1, C4, C6)

`BlockMultiRes<Data<Field::Occupancy>, BlockSize, DerivedT>` from `block.hpp`
lines 183-610 and `block_impl.hpp` lines 198-900. The three per-scale stacks
hold heap indices; index 0 is the coarsest scale. -/

/-- The state of a multi-resolution occupancy block. `maxScale` is
`log2(BlockSize)`; `heap` is the explicit pointer heap. -/
structure OccBlock where
  maxScale : ℕ
  heap : List (List OccData)
  data_ : List ℕ
  min_data_ : List ℕ
  max_data_ : List ℕ
  current_scale : ℤ
  min_scale : ℤ
  curr_integr_count : ℕ
  curr_observed_count : ℕ
  buffer_data : Option ℕ
  buffer_scale : ℤ
  buffer_integr_count : ℕ
  buffer_observed_count : ℕ
  init_data : OccData
deriving DecidableEq, Repr

/-- `math::cu(BlockSize >> scale)`: the number of voxels of a block at a given
scale (`BlockSize = 2 ^ maxScale`). -/
def numVoxelsAtScale (maxScale : ℕ) (scale : ℤ) : ℕ :=
  (2 ^ (maxScale - scale.toNat)) ^ 3

/-- `math::cu(1 << scale)`: the finest-voxel-equivalent volume of one voxel at
a given scale. -/
def scaleCu (scale : ℤ) : ℤ := ((2 : ℤ) ^ scale.toNat) ^ 3

/-- The occupancy block constructor, `block_impl.hpp` lines 771-781 together
with the member initializers of `block.hpp` lines 188-191: one single-voxel
array filled with the initial data, aliased by all three stacks;
`current_scale = max_scale` and `min_scale = -1`. -/
def mkOccBlock (maxScale : ℕ) (init_data : OccData) : OccBlock :=
  { maxScale := maxScale,
    heap := [[init_data]],
    data_ := [0],
    min_data_ := [0],
    max_data_ := [0],
    current_scale := (maxScale : ℤ),
    min_scale := -1,
    curr_integr_count := 0,
    curr_observed_count := 0,
    buffer_data := none,
    buffer_scale := -1,
    buffer_integr_count := 0,
    buffer_observed_count := 0,
    init_data := init_data }

/-- The initial per-block scale values of the multi-resolution TSDF block,
`block.hpp` lines 86-88: `max_scale = log2(BlockSize)`, `min_scale = -1`,
`current_scale = -1`. -/
structure TsdfBlockScales where
  max_scale : ℤ
  min_scale : ℤ
  current_scale : ℤ
deriving DecidableEq, Repr

/-- Construct the initial scale state of `BlockMultiRes<Data<Field::TSDF>>`
for a given block size. -/
def mkTsdfBlockScales (block_size : ℕ) : TsdfBlockScales :=
  { max_scale := sizeToScale block_size, min_scale := -1, current_scale := -1 }

/-- Working state of the `allocateDownTo` loop: the heap plus the three stacks
being rebuilt. -/
structure BlockStacks where
  heap : List (List OccData)
  dataPtrs : List ℕ
  minPtrs : List ℕ
  maxPtrs : List ℕ
deriving DecidableEq, Repr

/-- One iteration of the `allocateDownTo` loop (`block_impl.hpp` lines
478-508) at scale `s`: reuse the existing mean array at the current scale or
allocate a fresh one filled with the initial data; alias min/max to the mean
at the new minimum scale, otherwise allocate min/max copies of the mean. -/
def allocateScaleStep (maxScale : ℕ) (current_scale new_min_scale : ℤ)
    (init_data : OccData) (st : BlockStacks) (s : ℤ) : BlockStacks :=
  let num := numVoxelsAtScale maxScale s
  let p := if s = current_scale then st.dataPtrs.getLastD 0 else st.heap.length
  let heap1 := if s = current_scale then st.heap else st.heap ++ [List.replicate num init_data]
  let data1 := if s = current_scale then st.dataPtrs else st.dataPtrs ++ [st.heap.length]
  if s = new_min_scale then
    { heap := heap1, dataPtrs := data1, minPtrs := st.minPtrs ++ [p],
      maxPtrs := st.maxPtrs ++ [p] }
  else
    let arr := heap1.getD p []
    { heap := heap1 ++ [arr, arr], dataPtrs := data1,
      minPtrs := st.minPtrs ++ [heap1.length],
      maxPtrs := st.maxPtrs ++ [heap1.length + 1] }

/-- The `allocateDownTo` loop, iterating scales downwards. -/
def allocateLoop (maxScale : ℕ) (current_scale new_min_scale : ℤ) (init_data : OccData) :
    ℕ → ℤ → BlockStacks → BlockStacks
  | 0, _, st => st
  | fuel + 1, s, st =>
      allocateLoop maxScale current_scale new_min_scale init_data fuel (s - 1)
        (allocateScaleStep maxScale current_scale new_min_scale init_data st s)

/-- `BlockMultiRes<Occupancy>::allocateDownTo` from `block_impl.hpp` lines
465-512: no-op when the requested scale is not finer than the current one;
otherwise pop the aliased min/max entries, rebuild the stacks down to
`new_min_scale` and set `current_scale = min_scale = new_min_scale`. -/
def allocateDownTo (b : OccBlock) (new_min_scale : ℤ) : OccBlock :=
  if b.current_scale ≤ new_min_scale then b
  else
    let st0 : BlockStacks :=
      { heap := b.heap, dataPtrs := b.data_, minPtrs := b.min_data_.dropLast,
        maxPtrs := b.max_data_.dropLast }
    let n := (b.current_scale - new_min_scale + 1).toNat
    let st := allocateLoop b.maxScale b.current_scale new_min_scale b.init_data n
        b.current_scale st0
    { b with heap := st.heap, data_ := st.dataPtrs, min_data_ := st.minPtrs,
             max_data_ := st.maxPtrs, current_scale := new_min_scale,
             min_scale := new_min_scale }

/-- `BlockMultiRes<Occupancy>::deleteUpTo` from `block_impl.hpp` lines
515-547: pop (and free) the scales finer than `new_min_scale`, re-establish
the min/max aliasing at the new finest scale and set
`current_scale = min_scale = new_min_scale`. Freeing is modelled by dropping
the heap indices. -/
def deleteUpTo (b : OccBlock) (new_min_scale : ℤ) : OccBlock :=
  if new_min_scale ≤ b.min_scale ∨ b.min_scale = -1 then b
  else
    let n := (new_min_scale - b.min_scale).toNat
    let data1 := b.data_.take (b.data_.length - n)
    let min1 := b.min_data_.take (b.min_data_.length - n)
    let max1 := b.max_data_.take (b.max_data_.length - n)
    { b with data_ := data1,
             min_data_ := min1.dropLast ++ [data1.getLastD 0],
             max_data_ := max1.dropLast ++ [data1.getLastD 0],
             current_scale := new_min_scale,
             min_scale := new_min_scale }

/-- The success condition of `switchData` (`block_impl.hpp` lines 681-683):
at least 20 buffer integrations and buffer observation coverage (in
finest-voxel equivalents) at least 0.9 times the current coverage. The real
comparison `l ≥ 0.9 * r` is written exactly as `10 * l ≥ 9 * r`. -/
def switchCondition (b : OccBlock) : Prop :=
  20 ≤ b.buffer_integr_count ∧
    9 * ((b.curr_observed_count : ℤ) * scaleCu b.current_scale) ≤
      10 * ((b.buffer_observed_count : ℤ) * scaleCu b.buffer_scale)

instance (b : OccBlock) : Decidable (switchCondition b) := by
  unfold switchCondition; infer_instance

/-- The observed-state fix-up of `switchData` (lines 710-717) applied to one
voxel: a voxel with positive weight that is not yet observed becomes
observed. -/
def obsFix (d : OccData) : OccData :=
  if 0 < d.weight ∧ d.observed = false then { d with observed := true } else d

/-- The number of voxels whose observed bit the `switchData` walk sets
(`missed_observed_count`). -/
def missedObservedCount (l : List OccData) : ℕ :=
  (l.filter (fun d => decide (0 < d.weight) && !d.observed)).length

/-- `BlockMultiRes<Occupancy>::switchData` from `block_impl.hpp` lines
679-727. On success with a finer buffer scale: push the buffer array as the
new finest level of all three stacks, allocate fresh (default-initialised)
min/max arrays at the previously finest scale, and set
`current_scale = min_scale = buffer_scale`; with a coarser buffer scale call
`deleteUpTo`. Then walk the buffer setting missed observed bits, copy the
buffer counts into the current counts and clear the buffer. On failure return
false and leave the block unchanged. The C++ dereferences `buffer_data_`
unconditionally on success; the unreachable null case returns the block
unchanged. -/
def switchData (b : OccBlock) : Bool × OccBlock :=
  if switchCondition b then
    match b.buffer_data with
    | none => (true, b)
    | some bp =>
      let b1 :=
        if b.buffer_scale < b.current_scale then
          let num := numVoxelsAtScale b.maxScale (b.buffer_scale + 1)
          let idx := b.maxScale - (b.buffer_scale + 1).toNat
          { b with
            data_ := b.data_ ++ [bp],
            min_data_ := (b.min_data_ ++ [bp]).set idx b.heap.length,
            max_data_ := (b.max_data_ ++ [bp]).set idx (b.heap.length + 1),
            heap := b.heap ++ [List.replicate num defaultOccData,
                               List.replicate num defaultOccData],
            current_scale := b.buffer_scale,
            min_scale := b.buffer_scale }
        else
          deleteUpTo b b.buffer_scale
      let num2 := numVoxelsAtScale b.maxScale b.buffer_scale
      let arr := b1.heap.getD bp []
      let walked := (arr.take num2).map obsFix ++ arr.drop num2
      let missed := missedObservedCount (arr.take num2)
      (true,
        { b1 with
          heap := b1.heap.set bp walked,
          curr_integr_count := b.buffer_integr_count,
          curr_observed_count := b.buffer_observed_count + missed,
          buffer_data := none,
          buffer_scale := -1,
          buffer_integr_count := 0,
          buffer_observed_count := 0 })
  else
    (false, b)

/-- Modelled from the spec: `setCurrentScale` is declared in the block
interface used by the updater but its implementation is not under the provided
sources; it sets the block's current integration scale. -/
def setCurrentScale (b : OccBlock) (scale : ℤ) : OccBlock :=
  { b with current_scale := scale }

/-- `BlockMultiRes<Occupancy>::initCurrCount` from `block_impl.hpp` lines
579-597 (spelled `initCurrCout` at its call sites): when the initial data is
observed, start the counters from the initial weight and a fully-observed
voxel count at the current scale; otherwise reset both to zero. -/
def initCurrCount (b : OccBlock) : OccBlock :=
  if b.init_data.observed then
    { b with curr_integr_count := b.init_data.weight.toNat,
             curr_observed_count := numVoxelsAtScale b.maxScale b.current_scale }
  else
    { b with curr_integr_count := 0, curr_observed_count := 0 }

/-- `setInitData`: store a new initial-data value (trivial setter used by the
updater's fresh-block branch). -/
def setInitData (b : OccBlock) (d : OccData) : OccBlock := { b with init_data := d }

/-- The fresh-block branch of `Updater<Occupancy, Multi>::updateBlock`
(`multires_ofusion_updater_impl.hpp` lines 344-351): allocate down to the
recommended scale, set the current scale, initialise the counters and reset
the initial data to the default. -/
def updateBlockFreshBranch (b : OccBlock) (recommended_scale : ℤ) : OccBlock :=
  setInitData
    (initCurrCount (setCurrentScale (allocateDownTo b recommended_scale) recommended_scale))
    defaultOccData

/-- A concrete two-scale occupancy block (edge 2 voxels) with a full buffer at
scale 0, used to exercise `switchData`. -/
def c1DemoBlock : OccBlock :=
  { maxScale := 1,
    heap := [[{ occupancy := -3, weight := 5, observed := true }],
             [{ occupancy := -2, weight := 1, observed := true },
              { occupancy := -2, weight := 1, observed := false },
              { occupancy := 0, weight := 0, observed := false },
              { occupancy := -2, weight := 1, observed := true },
              { occupancy := -2, weight := 2, observed := false },
              { occupancy := 0, weight := 0, observed := false },
              { occupancy := -2, weight := 1, observed := true },
              { occupancy := -2, weight := 1, observed := true }]],
    data_ := [0],
    min_data_ := [0],
    max_data_ := [0],
    current_scale := 1,
    min_scale := 1,
    curr_integr_count := 30,
    curr_observed_count := 1,
    buffer_data := some 1,
    buffer_scale := 0,
    buffer_integr_count := 20,
    buffer_observed_count := 8,
    init_data := { occupancy := 0, weight := 0, observed := false } }

/-- A concrete three-scale occupancy block (edge 4 voxels, `max_scale = 2`)
whose buffer sits two scales finer than the current scale, as the free-space
fast-integration path can produce; used to exercise the `switchData` stack
behaviour when the scale gap exceeds one. -/
def c1GapBlock : OccBlock :=
  { maxScale := 2,
    heap := [[{ occupancy := -3, weight := 5, observed := true }],
             List.replicate 64 { occupancy := -1, weight := 1, observed := true }],
    data_ := [0],
    min_data_ := [0],
    max_data_ := [0],
    current_scale := 2,
    min_scale := 2,
    curr_integr_count := 30,
    curr_observed_count := 1,
    buffer_data := some 1,
    buffer_scale := 0,
    buffer_integr_count := 20,
    buffer_observed_count := 64,
    init_data := { occupancy := 0, weight := 0, observed := false } }

/-! ### Multi-resolution data query (claim C4) -/

/-- The result of `fetcher::leaf` as consumed by `visitor::getData`: nothing
allocated, the enclosing block, or the enclosing leaf node. The block case
carries the block state and the per-scale linear voxel index of the query
coordinate (the geometry of `voxelIdx`, abstracted). -/
inductive GetDataLeaf where
  | missing
  | block (b : OccBlock) (voxelIdxAt : ℤ → ℕ)
  | node (size : ℕ) (max_data : OccData) (leaf : Bool)

/-- `BlockMultiRes<Occupancy>::data(voxel_coord, scale_desired,
scale_returned)` from `block_impl.hpp` lines 868-880:
`scale_returned = max(scale_desired, current_scale)` and the data is read from
the stack at that scale. -/
def blockDataAtScales (b : OccBlock) (voxelIdxAt : ℤ → ℕ) (scale_desired : ℤ) :
    OccData × ℤ :=
  let scale_returned := max scale_desired b.current_scale
  ((b.heap.getD (b.data_.getD (b.maxScale - scale_returned.toNat) 0) []).getD
      (voxelIdxAt scale_returned) defaultOccData,
    scale_returned)

/-- `visitor::getData(octree, voxel_coord, scale_desired, scale_returned)` for
multi-resolution octrees, `visitor_impl.hpp` lines 1126-1149. Returns the data
and the value written to `scale_returned` (`none` when the code leaves
`scale_returned` unwritten, i.e. when nothing is allocated). For a node leaf
the code sets `scale_returned = scale_desired` and queries the node data. -/
def getDataMulti (leaf : GetDataLeaf) (scale_desired : ℤ) : OccData × Option ℤ :=
  match leaf with
  | .missing => (defaultOccData, none)
  | .block b voxelIdxAt =>
      let r := blockDataAtScales b voxelIdxAt scale_desired
      (r.1, some r.2)
  | .node _ max_data lf => (nodeDataQuery max_data lf, some scale_desired)

/-! ### Multi-resolution interpolation and gradient (claim C5) -/

/-- Trilinear interpolation over the eight gathered values, the formula of
`visitor_impl.hpp` lines 805-812, with interpolation weights `t` and
`tc = 1 - t`. -/
def trilinear (tx ty tz : ℚ) (v : ℕ → ℚ) : ℚ :=
  ((v 0 * (1 - tx) + v 1 * tx) * (1 - ty) + (v 2 * (1 - tx) + v 3 * tx) * ty) * (1 - tz)
    + ((v 4 * (1 - tx) + v 5 * tx) * (1 - ty) + (v 6 * (1 - tx) + v 7 * tx) * ty) * tz

/-- The result of `fetcher::leaf` as consumed by the multi-resolution
`interpImpl`. -/
inductive InterpLeaf where
  | missing
  | block (current_scale : ℤ)
  | node (size : ℕ) (data : OccData)

/-- The leaf octant consumed by `detail::gather_local` (`visitor_impl.hpp`
lines 309-335): a block carries its `current_scale` and the eight per-offset
data reads `block_ptr->data(base_coord + stride * interp_offsets[k], scale)`
(the coordinate geometry abstracted into `reads`); a node carries its single
stored `node_ptr->data()` value. -/
inductive GatherLeaf where
  | missing
  | block (current_scale : ℤ) (reads : ℕ → OccData)
  | node (data : OccData)

/-- `detail::gather_local` (`visitor_impl.hpp` lines 309-335): a block is
read per interpolation offset at the gather scale; a node fills all eight
neighbour slots with its single stored value
(`std::fill_n(neighbour_data, 8, node_data)`, lines 328-333). -/
def gatherLocal (leaf : GatherLeaf) : List OccData :=
  match leaf with
  | .missing => []
  | .block _ reads => (List.range 8).map reads
  | .node nd => List.replicate 8 nd

/-- The octree-and-geometry-dependent outcome of one `detail::get_neighbours`
call (`visitor_impl.hpp` lines 398-...): the stride bounds check fails
(`oob`), the base octant is unallocated (`noBase`), the eight neighbours fall
inside one leaf (`crossmask == 0`, `allLocal` with the fetched leaf), or the
neighbours cross octant boundaries (`crossmask != 0`, the multi-leaf
`gather_4`/`gather_2` paths abstracted into the gathered result). -/
inductive NeighbourFetch where
  | oob
  | noBase
  | allLocal (leaf : GatherLeaf)
  | crossing (result : Option (List OccData))

/-- `detail::get_neighbours` for multi-resolution octrees (`visitor_impl.hpp`
lines 398-...): out-of-bounds or an unallocated base octant fail the gather;
in the all-local case a missing leaf or a block whose `current_scale` is
coarser than the gather scale fails it, otherwise `gather_local` produces the
eight neighbours — for a node leaf, eight copies of the node's single stored
value. -/
def getNeighbours (s : ℤ) (nf : NeighbourFetch) : Option (List OccData) :=
  match nf with
  | .oob => none
  | .noBase => none
  | .allLocal .missing => none
  | .allLocal (.block cs reads) =>
      if s < cs then none else some (gatherLocal (.block cs reads))
  | .allLocal (.node nd) => some (gatherLocal (.node nd))
  | .crossing r => r

/-- The scale loop of the multi-resolution `visitor::detail::interpImpl`
(`visitor_impl.hpp` lines 777-813), with the octree-dependent pieces
abstracted per scale: `aabbOk s` is the AABB containment test of the base
coordinate, `gather s` is `detail::get_neighbours` (`none` on failure),
`valid` and `gv` are the `ValidF`/`GetF` functors, `tOf s` the interpolation
weights `math::fracf(base_coord_f)` and `retScale s` the scale written to
`returned_scale`. A gather failure retries at the next coarser scale; invalid
gathered data aborts with `none`; the loop ends after `max_scale`. -/
def interpLoop (aabbOk : ℤ → Bool) (gather : ℤ → Option (List OccData))
    (valid : OccData → Bool) (gv : OccData → ℚ) (tOf : ℤ → ℚ × ℚ × ℚ)
    (retScale : ℤ → ℤ) : ℕ → ℤ → Option (ℚ × ℤ)
  | 0, _ => none
  | fuel + 1, s =>
      if aabbOk s = false then none
      else
        match gather s with
        | none => interpLoop aabbOk gather valid gv tOf retScale fuel (s + 1)
        | some ds =>
            if ds.all valid then
              some (trilinear (tOf s).1 (tOf s).2.1 (tOf s).2.2
                  (fun k => gv (ds.getD k defaultOccData)),
                retScale s)
            else
              none

/-- The multi-resolution `visitor::detail::interpImpl` (`visitor_impl.hpp`
lines 751-815). The initial scale is `max(current_scale, desired_scale)` for a
block and 0 for a node; the loop runs up to `BlockType::max_scale`, gathering
through `get_neighbours` (`fetch` supplies each scale's octree-and-geometry
outcome); for a node the returned scale is `size_to_scale(octant.size)`. -/
def interpImplMulti (maxScale : ℤ) (leaf : InterpLeaf) (aabbOk : ℤ → Bool)
    (fetch : ℤ → NeighbourFetch) (valid : OccData → Bool) (gv : OccData → ℚ)
    (tOf : ℤ → ℚ × ℚ × ℚ) (desired_scale : ℤ) : Option (ℚ × ℤ) :=
  match leaf with
  | .missing => none
  | .block current_scale =>
      let init_scale := max current_scale desired_scale
      interpLoop aabbOk (fun s => getNeighbours s (fetch s)) valid gv tOf (fun s => s)
        (maxScale - init_scale + 1).toNat init_scale
  | .node size _ =>
      interpLoop aabbOk (fun s => getNeighbours s (fetch s)) valid gv tOf
        (fun _ => sizeToScale size) (maxScale + 1).toNat 0

/-- The result of `fetcher::finest_octant` as consumed by the
multi-resolution `gradImpl`: nothing, a block (with its current scale), or a
node (with its leaf flag, whether `is_valid(node.data())` holds, and its
size). -/
inductive GradFetch where
  | missing
  | block (current_scale : ℤ)
  | node (leaf : Bool) (dataValid : Bool) (size : ℕ)

/-- The scale loop of the multi-resolution `visitor::detail::gradImpl`
(`visitor_impl.hpp` lines 1022-1076): per scale, re-fetch the octant
(`fetchAt`); a missing octant or an unusable node retries coarser; a leaf node
with valid data yields the zero gradient at the node's scale; a block gathers
the 32 samples (`samples s`, `none` when any sample is invalid or not at scale
`s`, modelling lines 1055-1070) and returns the gradient value at the first
fully-valid scale. -/
def gradLoop (fetchAt : ℤ → GradFetch) (samples : ℤ → Option (List ℚ))
    (gradValue : ℤ → List ℚ → ℚ × ℚ × ℚ) : ℕ → ℤ → Option ((ℚ × ℚ × ℚ) × ℤ)
  | 0, _ => none
  | fuel + 1, s =>
      match fetchAt s with
      | .missing => gradLoop fetchAt samples gradValue fuel (s + 1)
      | .node lf dv size =>
          if lf = true ∧ dv = true then some ((0, 0, 0), sizeToScale size)
          else gradLoop fetchAt samples gradValue fuel (s + 1)
      | .block _ =>
          match samples s with
          | none => gradLoop fetchAt samples gradValue fuel (s + 1)
          | some ds => some (gradValue s ds, s)

/-- The multi-resolution `visitor::detail::gradImpl` (`visitor_impl.hpp` lines
966-1079). A missing octant gives `none`; a node above the block level with
valid data gives the zero gradient at the node's scale and `none` otherwise
(lines 993-1016); a block enters the scale loop starting at
`max(desired_scale, current_scale)`. -/
def gradImplMulti (maxScale : ℤ) (first : GradFetch) (fetchAt : ℤ → GradFetch)
    (samples : ℤ → Option (List ℚ)) (gradValue : ℤ → List ℚ → ℚ × ℚ × ℚ)
    (desired_scale : ℤ) : Option ((ℚ × ℚ × ℚ) × ℤ) :=
  match first with
  | .missing => none
  | .node _ dv size => if dv = true then some ((0, 0, 0), sizeToScale size) else none
  | .block current_scale =>
      let init_scale := max desired_scale current_scale
      gradLoop fetchAt samples gradValue (maxScale - init_scale + 1).toNat init_scale

/-! ### Bottom-up propagation (claims C3, C7)

`Updater<Occupancy, Multi>::propagateToRoot` from
`multires_ofusion_updater_impl.hpp` lines 114-159. Octants are identified by
heap indices; the octant map, the depth-indexed node sets and the optional
`updated_octants` set form the propagation state. -/

/-- An octant as seen by the propagation sweep: parent pointer, eight child
slots, up-propagated min/max data and the last-update timestamp (spec section
3.2; `OctantBase` is not under the provided sources). Blocks participate with
empty child slots and their coarsest-scale min/max data. -/
structure POctant where
  parent : Option ℕ
  children : List (Option ℕ)
  minD : OccData
  maxD : OccData
  ts : ℤ
deriving DecidableEq, Repr

/-- The octant map: an association list from octant ids to octants (the
memory pool view of the allocated octants). -/
def OctMap : Type := List (ℕ × POctant)

instance : DecidableEq OctMap := by
  unfold OctMap; infer_instance

/-- Look up an octant id (pointer dereference; `none` models a dangling or
null pointer). -/
def lookupOct (m : OctMap) (i : ℕ) : Option POctant :=
  (m.find? (fun p => p.1 == i)).map (fun p => p.2)

/-- Replace the octant stored at an id (first occurrence), keeping the map
otherwise unchanged. Ids are never added. -/
def updateOct : OctMap → ℕ → POctant → OctMap
  | [], _, _ => []
  | (k, v) :: rest, i, o => if k = i then (k, o) :: rest else (k, v) :: updateOct rest i o

/-- Deallocate an octant id. -/
def removeOct (m : OctMap) (i : ℕ) : OctMap :=
  m.filter (fun p => p.1 ≠ i)

/-- The ids of the allocated children of an octant. -/
def childIds (m : OctMap) (i : ℕ) : List ℕ :=
  match lookupOct m i with
  | some o => o.children.filterMap id
  | none => []

/-- All ids reachable from a frontier by repeatedly following child pointers,
bounded by a fuel argument (the subtree of an octant, for recursive
deletion). -/
def descendants (m : OctMap) : ℕ → List ℕ → List ℕ
  | 0, frontier => frontier
  | fuel + 1, frontier => frontier ++ descendants m fuel (frontier.flatMap (childIds m))

/-- Modelled from the spec: `Octree::deleteChildren` recursively deletes all
the children of a node (doc comment in `octree.hpp` line 141; the
implementation is not under the provided sources). All octants of the subtree
below the node are deallocated and the node's child slots become null. -/
def deleteChildrenAll (m : OctMap) (i : ℕ) : OctMap :=
  let subs := descendants m m.length (childIds m i)
  let m1 := subs.foldl removeOct m
  match lookupOct m1 i with
  | some o => updateOct m1 i { o with children := List.replicate 8 none }
  | none => m1

/-- Fold a minimum over occupancy data, ordered by the field value
(`get_field = occupancy * weight`). -/
def reduceMinData : List OccData → OccData → OccData
  | [], a => a
  | x :: xs, a => reduceMinData xs (if fieldVal x < fieldVal a then x else a)

/-- Fold a maximum over occupancy data, ordered by the field value. -/
def reduceMaxData : List OccData → OccData → OccData
  | [], a => a
  | x :: xs, a => reduceMaxData xs (if fieldVal a < fieldVal x then x else a)

/-- Whether a child slot holds an octant whose max data is observed (an empty
slot counts as unobserved). -/
def childObservedMax (m : OctMap) : Option ℕ → Bool
  | none => false
  | some cid =>
      match lookupOct m cid with
      | none => false
      | some o => o.maxD.observed

/-- Whether a child slot holds an octant whose min data is observed. -/
def childObservedMin (m : OctMap) : Option ℕ → Bool
  | none => false
  | some cid =>
      match lookupOct m cid with
      | none => false
      | some o => o.minD.observed

/-- Modelled from the spec: `updater::propagate_to_parent_node` (called from
`multires_ofusion_updater_impl.hpp` lines 133-134 and 158; the implementation
is not under the provided sources). Per spec section 4.4.4 it reduces over the
node's children — `min_data = ⊓ child.min_data`, `max_data = ⊔
child.max_data`, `observed = ∧ child.observed` — marks the node with the
current timestamp and returns the node's reduced data (the up-propagated max
data, on which the pruning test is made). A node without children keeps its
data and is only marked. -/
def propagateToParentNode (m : OctMap) (i : ℕ) (ts : ℤ) : OctMap × OccData :=
  match lookupOct m i with
  | none => (m, defaultOccData)
  | some o =>
      let cs := (o.children.filterMap id).filterMap
        (fun c => (lookupOct m c).map (fun x => (x.minD, x.maxD)))
      match cs with
      | [] => (updateOct m i { o with ts := ts }, o.maxD)
      | c0 :: rest =>
          let mn := { reduceMinData (rest.map (fun p => p.1)) c0.1 with
                      observed := o.children.all (childObservedMin m) }
          let mx := { reduceMaxData (rest.map (fun p => p.2)) c0.2 with
                      observed := o.children.all (childObservedMax m) }
          (updateOct m i { o with minD := mn, maxD := mx, ts := ts }, mx)

/-- Insert an id into a set modelled as a duplicate-free list (no-op when
already present). -/
def setInsert (l : List ℕ) (i : ℕ) : List ℕ :=
  if i ∈ l then l else l ++ [i]

/-- Insert an id into the node set of a given depth. -/
def setInsertAt (ns : List (List ℕ)) (d : ℕ) (i : ℕ) : List (List ℕ) :=
  ns.set d (setInsert (ns.getD d []) i)

/-- Erase an id from a set modelled as a list (`std::set::erase`). -/
def listErase (l : List ℕ) (i : ℕ) : List ℕ :=
  l.filter (fun x => x ≠ i)

/-- The state threaded through `propagateToRoot`: the octant map, the
depth-indexed node sets (`node_set_`) and the optional caller-provided
`updated_octants` set. -/
structure PState where
  nodes : OctMap
  node_set : List (List ℕ)
  updated : Option (List ℕ)
deriving DecidableEq

/-- The body of the per-depth loop of `propagateToRoot`
(`multires_ofusion_updater_impl.hpp` lines 127-154) for one octant id: skip
dangling ids (a deallocated set entry), skip octants already stamped with the
current timestamp, skip the root (no parent); otherwise up-propagate, insert
the parent one depth up, record the octant in `updated_octants`, and — when
the propagated data is observed with field value at most `0.95 *
min_occupancy` (written exactly as `100 * field ≤ 95 * min_occupancy`) — first
erase the node's children from `updated_octants` and then delete the whole
subtree under the node. -/
def processOctant (min_occupancy ts : ℤ) (d : ℕ) (s : PState) (i : ℕ) : PState :=
  match lookupOct s.nodes i with
  | none => s
  | some o =>
      if o.ts = ts then s
      else
        match o.parent with
        | none => s
        | some par =>
            let pr := propagateToParentNode s.nodes i ts
            let nset1 := setInsertAt s.node_set (d - 1) par
            let upd1 := s.updated.map (fun u => setInsert u i)
            if pr.2.observed = true ∧ 100 * fieldVal pr.2 ≤ 95 * min_occupancy then
              let upd2 := upd1.map (fun u => (o.children.filterMap id).foldl listErase u)
              { nodes := deleteChildrenAll pr.1 i, node_set := nset1, updated := upd2 }
            else
              { nodes := pr.1, node_set := nset1, updated := upd1 }

/-- One depth of the sweep: process every octant currently in the node set of
depth `d` (insertions during the sweep only target other depths, so iterating
over the snapshot matches the C++ iteration over the live `std::set`). -/
def sweepDepth (min_occupancy ts : ℤ) (d : ℕ) (s : PState) : PState :=
  (s.node_set.getD d []).foldl (processOctant min_occupancy ts d) s

/-- The depth loop of `propagateToRoot` (line 125): depths
`block_depth - 1, …, 1`, coarser depths later. -/
def sweepDepths (min_occupancy ts : ℤ) : ℕ → PState → PState
  | 0, s => s
  | d + 1, s => sweepDepths min_occupancy ts d (sweepDepth min_occupancy ts (d + 1) s)

/-- The final `propagate_to_parent_node(root, timestamp)` call (line 158). -/
def rootPropagate (ts : ℤ) (root : ℕ) (s : PState) : PState :=
  { s with nodes := (propagateToParentNode s.nodes root ts).1 }

/-- `Updater<Occupancy, Multi>::propagateToRoot`
(`multires_ofusion_updater_impl.hpp` lines 114-159): seed the deepest node set
with the parents of the integrated blocks, sweep depths bottom-up and finally
propagate into the root. -/
def propagateToRoot (min_occupancy ts : ℤ) (block_depth root : ℕ) (block_list : List ℕ)
    (s : PState) : PState :=
  let parents := block_list.filterMap (fun bid => (lookupOct s.nodes bid).bind (fun o => o.parent))
  let s1 : PState :=
    { s with node_set := parents.foldl (fun ns p => setInsertAt ns (block_depth - 1) p) s.node_set }
  rootPropagate ts root (sweepDepths min_occupancy ts (block_depth - 1) s1)

/-- An octant id is inert for a sweep at timestamp `ts`: it is deallocated,
already stamped with `ts`, or parentless — in each case `processOctant` skips
it without changing the state. -/
def InertOct (ts : ℤ) (m : OctMap) (i : ℕ) : Prop :=
  ∀ o, lookupOct m i = some o → o.ts = ts ∨ o.parent = none

/-- How one propagation step may change the octant map: records are only
removed or rewritten in place, a rewrite keeps the parent, keeps or stamps the
timestamp, and can only shrink the set of non-null children. -/
def StepRefines (ts : ℤ) (m m2 : OctMap) : Prop :=
  ∀ j o2, lookupOct m2 j = some o2 →
    ∃ o, lookupOct m j = some o ∧ o2.parent = o.parent ∧
      (o2.ts = o.ts ∨ o2.ts = ts) ∧
      (∀ c ∈ o2.children.filterMap id, c ∈ o.children.filterMap id)

/-- Occupancy data of a saturated fully-observed free voxel, for concrete
propagation states. -/
def c3FreeData : OccData := { occupancy := -100, weight := 1, observed := true }

/-- A concrete octant map: root 0, an interior node 1 whose eight children
(ids 2-9) are blocks saturated at free space. -/
def c3DemoNodes : OctMap :=
  (0, { parent := none, children := [some 1, none, none, none, none, none, none, none],
        minD := defaultOccData, maxD := defaultOccData, ts := 5 })
  :: (1, { parent := some 0,
           children := [some 2, some 3, some 4, some 5, some 6, some 7, some 8, some 9],
           minD := defaultOccData, maxD := defaultOccData, ts := 5 })
  :: (List.range 8).map (fun k =>
      (k + 2, { parent := some 1, children := List.replicate 8 none,
                minD := c3FreeData, maxD := c3FreeData, ts := 5 }))

/-- A concrete propagation state over `c3DemoNodes` with blocks 2 and 3 in
the `updated_octants` set. -/
def c3DemoState : PState :=
  { nodes := c3DemoNodes, node_set := [[], [1]], updated := some [2, 3] }

/-- The parents of the integrated blocks, read off the current octant map
(`propagateToRoot` lines 118-123; restates the seeding of `propagateToRoot`
for use in proofs). -/
def prParents (s : PState) (bl : List ℕ) : List ℕ :=
  bl.filterMap (fun bid => (lookupOct s.nodes bid).bind (fun o => o.parent))

/-- The state after the seeding phase of `propagateToRoot` (restates the
insertion of the block parents into the deepest node set, for use in
proofs). -/
def prSeed (bd : ℕ) (bl : List ℕ) (s : PState) : PState :=
  { s with node_set :=
      (prParents s bl).foldl (fun ns p => setInsertAt ns (bd - 1) p) s.node_set }

/-- The node record written by `propagateToParentNode` when the child
reduction list is non-empty (restates the `cons` arm of
`propagateToParentNode`, for use in proofs). -/
def ppReduced (m : OctMap) (o : POctant) (c0 : OccData × OccData)
    (rest : List (OccData × OccData)) (ts : ℤ) : POctant :=
  { o with
    minD := { reduceMinData (rest.map (fun p => p.1)) c0.1 with
              observed := o.children.all (childObservedMin m) },
    maxD := { reduceMaxData (rest.map (fun p => p.2)) c0.2 with
              observed := o.children.all (childObservedMax m) },
    ts := ts }

/-- A minimal concrete propagation state: a lone root octant. -/
def c7DemoState : PState :=
  { nodes := [(0, { parent := none, children := List.replicate 8 none,
                    minD := defaultOccData, maxD := defaultOccData, ts := 0 })],
    node_set := [[0]], updated := none }

/-! ## Theorems -/

/-- Helper: a chain of non-zero-preserving id updates keeps the id non-zero. -/
theorem idUpdates_ne_zero (inputs : List ℕ) :
    ∀ stored : ℕ, stored ≠ 0 → idUpdates stored inputs ≠ 0 := by
  induction inputs with
  | nil => intro stored h; exact h
  | cons a l ih =>
      intro stored h
      simp only [idUpdates, List.foldl_cons] at *
      by_cases ha : a = 0
      · subst ha
        simpa [idUpdate, g_not_segmented] using ih stored h
      · simpa [idUpdate, g_not_segmented, ha] using ih a ha

/-- C9: the voxel identifier update is sticky. A zero input (the
`g_not_segmented` no-identifier value) leaves the stored id unchanged and
reports false; any non-zero input overwrites the stored id and reports true;
consequently a non-zero stored id never becomes zero through any sequence of
updates. -/
theorem c9_id_update_sticky (stored input : ℕ) :
    (input = 0 → idUpdate stored input = (stored, false)) ∧
    (input ≠ 0 → idUpdate stored input = (input, true)) ∧
    (stored ≠ 0 → ∀ inputs : List ℕ, idUpdates stored inputs ≠ 0) := by
  refine ⟨?_, ?_, ?_⟩
  · intro h; simp [idUpdate, g_not_segmented, h]
  · intro h; simp [idUpdate, g_not_segmented, h]
  · intro h inputs; exact idUpdates_ne_zero inputs stored h

/-- Witness for C9 at concrete inputs. -/
theorem c9_id_update_sticky_witness :
    idUpdate 5 0 = (5, false) ∧ idUpdate 5 7 = (7, true) ∧
    idUpdates 5 [0, 3, 0] ≠ 0 :=
  ⟨(c9_id_update_sticky 5 0).1 rfl,
   (c9_id_update_sticky 5 7).2.1 (by decide),
   (c9_id_update_sticky 5 0).2.2 (by decide) [0, 3, 0]⟩

/-- C10: the occupancy node data query returns the up-propagated max data
exactly when that data is observed and the node is a leaf; otherwise (any
non-leaf node, or unobserved max data) it returns the default data, which is
unobserved, weightless and invalid — interior nodes always read as unknown
through this interface. -/
theorem c10_node_data_query (max_data : OccData) (leaf : Bool) :
    (max_data.observed = true → leaf = true → nodeDataQuery max_data leaf = max_data) ∧
    (¬(max_data.observed = true ∧ leaf = true) →
      nodeDataQuery max_data leaf = defaultOccData) ∧
    (leaf = false →
      nodeDataQuery max_data leaf = defaultOccData ∧
      (nodeDataQuery max_data leaf).observed = false ∧
      (nodeDataQuery max_data leaf).weight = 0 ∧
      isValidData (nodeDataQuery max_data leaf) = false) := by
  refine ⟨?_, ?_, ?_⟩
  · intro h1 h2; simp [nodeDataQuery, h1, h2]
  · intro h; simp [nodeDataQuery, h]
  · intro h; subst h; simp [nodeDataQuery, defaultOccData, isValidData]

/-- Witness for C10 at concrete inputs. -/
theorem c10_node_data_query_witness :
    nodeDataQuery { occupancy := 3, weight := 2, observed := true } true
        = { occupancy := 3, weight := 2, observed := true } ∧
    nodeDataQuery { occupancy := 3, weight := 2, observed := true } false = defaultOccData :=
  ⟨(c10_node_data_query { occupancy := 3, weight := 2, observed := true } true).1 rfl rfl,
   ((c10_node_data_query { occupancy := 3, weight := 2, observed := true } false).2.2 rfl).1⟩

/-- C2 (amended): for a block already integrated into (`min_scale ≠ -1`) the
recommended integration scale is `clamp(computed, min_allowed, max_allowed)`
with `max_allowed = min(last_scale + 1, max_scale)` and `min_allowed = max(0,
last_scale - 1)` outside the free-space case and `fs_integr_scale` in the
free-space case (low variance and max data well below the occupancy minimum).
The scale can increase by at most 1; outside the free-space case it can also
decrease by at most 1, but on the free-space path it may decrease by more
than 1 (towards `fs_integr_scale`), so the claimed unconditional ±1 bound
fails (see the counterexample). -/
theorem c2_scale_hysteresis (computed : ℤ) (low_variance : Bool) (min_scale : ℤ)
    (max_data_occ log_odd_min fs last_scale max_scale : ℤ)
    (hmin : min_scale ≠ -1) (hlast : last_scale ≤ max_scale) :
    recommendedIntegrationScale computed low_variance min_scale max_data_occ log_odd_min fs
        last_scale max_scale
      = min (max (minIntegrationScale low_variance min_scale max_data_occ log_odd_min fs
              last_scale) computed)
          (min (last_scale + 1) max_scale) ∧
    (¬(low_variance = true ∧ 100 * max_data_occ < 95 * log_odd_min) →
      minIntegrationScale low_variance min_scale max_data_occ log_odd_min fs last_scale
        = max 0 (last_scale - 1)) ∧
    ((low_variance = true ∧ 100 * max_data_occ < 95 * log_odd_min) →
      minIntegrationScale low_variance min_scale max_data_occ log_odd_min fs last_scale = fs) ∧
    recommendedIntegrationScale computed low_variance min_scale max_data_occ log_odd_min fs
        last_scale max_scale ≤ last_scale + 1 ∧
    (¬(low_variance = true ∧ 100 * max_data_occ < 95 * log_odd_min) →
      last_scale - 1 ≤ recommendedIntegrationScale computed low_variance min_scale max_data_occ
        log_odd_min fs last_scale max_scale) := by
  have hmx : maxIntegrationScale min_scale max_scale last_scale
      = min max_scale (last_scale + 1) := by
    simp [maxIntegrationScale, hmin]
  refine ⟨?_, ?_, ?_, ?_, ?_⟩
  · rw [recommendedIntegrationScale, hmx, min_comm max_scale (last_scale + 1)]
  · intro h
    rw [minIntegrationScale, if_neg]
    intro hc
    rcases hc.2 with hc2 | hc2
    · exact hmin hc2
    · exact h ⟨hc.1, hc2⟩
  · intro h
    rw [minIntegrationScale, if_pos ⟨h.1, Or.inr h.2⟩]
  · rw [recommendedIntegrationScale, hmx]
    omega
  · intro h
    have h1 : minIntegrationScale low_variance min_scale max_data_occ log_odd_min fs last_scale
        = max 0 (last_scale - 1) := by
      rw [minIntegrationScale, if_neg]
      intro hc
      rcases hc.2 with hc2 | hc2
      · exact hmin hc2
      · exact h ⟨hc.1, hc2⟩
    rw [recommendedIntegrationScale, hmx, h1]
    omega

/-- Witness for C2 at concrete inputs (non-free-space steady integration). -/
theorem c2_scale_hysteresis_witness :
    recommendedIntegrationScale 3 false 1 0 (-5) 0 1 3
      = min (max (minIntegrationScale false 1 0 (-5) 0 1) 3) (min (1 + 1) 3) ∧
    recommendedIntegrationScale 3 false 1 0 (-5) 0 1 3 ≤ 1 + 1 ∧
    (1 : ℤ) - 1 ≤ recommendedIntegrationScale 3 false 1 0 (-5) 0 1 3 := by
  have h := c2_scale_hysteresis 3 false 1 0 (-5) 0 1 3 (by decide) (by decide)
  exact ⟨h.1, h.2.2.2.1, h.2.2.2.2 (by decide)⟩

/-- Counterexample for C2 as stated: a previously integrated block
(`min_scale = 0`) on the free-space path (low variance, max data occupancy
-100 far below `0.95 * log_odd_min` with `log_odd_min = -5`), with
`fs_integr_scale = 0`, `last_scale = 2`, `max_scale = 3` and computed scale 0,
gets recommended scale 0: the integration scale changes by 2 in one frame,
violating the claimed ±1 bound. -/
theorem c2_counterexample :
    recommendedIntegrationScale 0 true 0 (-100) (-5) 0 2 3 = 0 ∧
    ¬((2 : ℤ) - recommendedIntegrationScale 0 true 0 (-100) (-5) 0 2 3 ≤ 1) := by
  refine ⟨by decide, by decide⟩

/-- C4 (amended): the multi-resolution `getData` query on a block returns data
at scale `max(desired, current_scale)`, which is never finer than either the
block's current scale or the desired scale; when the enclosing leaf is a node,
the code returns the *desired* scale (see the TODO at `visitor_impl.hpp` line
1146), not `log2(node_size)` as claimed (see the counterexample). -/
theorem c4_get_data_scale (b : OccBlock) (vIdx : ℤ → ℕ) (size : ℕ) (md : OccData)
    (leaf : Bool) (scale_desired : ℤ) :
    ((getDataMulti (.block b vIdx) scale_desired).2
        = some (max scale_desired b.current_scale) ∧
      b.current_scale ≤ max scale_desired b.current_scale ∧
      scale_desired ≤ max scale_desired b.current_scale) ∧
    (getDataMulti (.node size md leaf) scale_desired).2 = some scale_desired := by
  refine ⟨⟨rfl, le_max_right _ _, le_max_left _ _⟩, rfl⟩

/-- Counterexample for C4 as stated: a query landing in a leaf node of size 16
(scale `log2 16 = 4`) with desired scale 0 reports actual scale 0, not 4. -/
theorem c4_counterexample :
    sizeToScale 16 = 4 ∧
    (getDataMulti (.node 16 defaultOccData true) 0).2 = some 0 ∧
    (getDataMulti (.node 16 defaultOccData true) 0).2 ≠ some (sizeToScale 16) := by
  refine ⟨by decide, rfl, by decide⟩

/-- Helper: the counter and init-data steps of the fresh-block branch do not
touch `min_scale`. -/
theorem updateBlockFresh_min_scale (b : OccBlock) (r : ℤ) :
    (updateBlockFreshBranch b r).min_scale = (allocateDownTo b r).min_scale := by
  simp only [updateBlockFreshBranch, setInitData, initCurrCount, setCurrentScale]
  split <;> rfl

/-- Helper: the fresh-block branch always ends with the recommended current
scale (`setCurrentScale` runs after `allocateDownTo`). -/
theorem updateBlockFresh_current_scale (b : OccBlock) (r : ℤ) :
    (updateBlockFreshBranch b r).current_scale = r := by
  simp only [updateBlockFreshBranch, setInitData, initCurrCount, setCurrentScale]
  split <;> rfl

/-- Helper: `1 <<< i` is the `i`-th power of two. -/
theorem one_shiftLeft_eq_pow (i : ℕ) : (1 <<< i) = 2 ^ i := by
  rw [Nat.shiftLeft_eq, one_mul]

/-- Helper: `setChild` preserves the child-mask invariant for in-range child
indices. -/
theorem setChild_childMaskInv (n : CNode) (i : ℕ) (p : Option ℕ) (hi : i < 8)
    (h : ChildMaskInv n) : ChildMaskInv (setChild n i p) := by
  obtain ⟨h8, hI⟩ := h
  constructor
  · simp [setChild, List.length_set, h8]
  · intro k
    have hK8 : (n.children.set i p).getD k none = if k = i then p else n.children.getD k none := by
      by_cases hk : k = i
      · subst hk
        simp [List.getD, List.getElem?_set_self, h8 ▸ hi]
      · simp [List.getD, List.getElem?_set_ne (fun hh => hk hh.symm), hk]
    cases p with
    | some q =>
        simp only [setChild, Nat.testBit_or, one_shiftLeft_eq_pow, Nat.testBit_two_pow, hK8]
        by_cases hk : k = i
        · subst hk; simp
        · have hik : i ≠ k := fun hh => hk hh.symm
          simp [hk, hik, hI k]
    | none =>
        have h255 : (255 : ℕ) = 2 ^ 8 - 1 := by norm_num
        simp only [setChild, Nat.testBit_and, Nat.testBit_xor, one_shiftLeft_eq_pow,
          Nat.testBit_two_pow, h255, Nat.testBit_two_pow_sub_one, hK8]
        by_cases hk : k = i
        · subst hk
          simp [hi]
        · have hik : i ≠ k := fun hh => hk hh.symm
          by_cases hk8 : k < 8
          · simp [hk, hk8, hik, hI k]
          · have hnone : n.children.getD k none = none := by
              apply List.getD_eq_default
              omega
            simp only [hI k, hnone] at *
            simp [hk, hk8, hik, hnone]

/-- Helper: the child-mask invariant after any sequence of in-range
`setChild` operations from a node satisfying it. -/
theorem runSetChildOps_childMaskInv (ops : List (ℕ × Option ℕ)) :
    ∀ n : CNode, (∀ p ∈ ops, p.1 < 8) → ChildMaskInv n →
      ChildMaskInv (runSetChildOps n ops) := by
  induction ops with
  | nil => intro n _ h; exact h
  | cons a l ih =>
      intro n hops h
      simp only [runSetChildOps, List.foldl_cons]
      exact ih _ (fun p hp => hops p (List.mem_cons_of_mem a hp))
        (setChild_childMaskInv n a.1 a.2 (hops a (List.mem_cons_self a l)) h)

/-- Helper: the fresh node satisfies the child-mask invariant. -/
theorem newNode_childMaskInv : ChildMaskInv newNode := by
  refine ⟨by simp [newNode], ?_⟩
  intro k
  show (0 : ℕ).testBit k = ((List.replicate 8 (none : Option ℕ)).getD k none).isSome
  rw [Nat.zero_testBit, List.getD, List.get?_eq_getElem?, List.getElem?_replicate]
  by_cases hk : k < 8 <;> simp [hk]

/-- C8: after any sequence of `setChild` operations on a fresh node (with
child indices in `[0, 7]`), bit `i` of `child_mask` is set if and only if
child slot `i` holds a non-null pointer, and the mask is zero exactly when
every child slot is null (the node is a leaf). -/
theorem c8_child_mask (ops : List (ℕ × Option ℕ)) (hops : ∀ p ∈ ops, p.1 < 8) :
    (∀ k, (runSetChildOps newNode ops).child_mask.testBit k
        = ((runSetChildOps newNode ops).children.getD k none).isSome) ∧
    ((runSetChildOps newNode ops).child_mask = 0 ↔
      nodeIsLeaf (runSetChildOps newNode ops) = true) := by
  obtain ⟨h8, hI⟩ := runSetChildOps_childMaskInv ops newNode hops newNode_childMaskInv
  refine ⟨hI, ?_⟩
  constructor
  · intro h0
    rw [nodeIsLeaf, List.all_eq_true]
    intro c hc
    obtain ⟨k, hk, hck⟩ := List.mem_iff_getElem.mp hc
    have hgd : (runSetChildOps newNode ops).children.getD k none = c := by
      simp [List.getD, List.getElem?_eq_getElem hk, hck]
    have := hI k
    rw [h0, Nat.zero_testBit, hgd] at this
    cases c with
    | none => rfl
    | some q => simp at this
  · intro hleaf
    apply Nat.eq_of_testBit_eq
    intro k
    rw [Nat.zero_testBit, hI k]
    by_cases hk : k < 8
    · have hlt : k < (runSetChildOps newNode ops).children.length := by omega
      rw [List.getD_eq_getElem _ _ hlt]
      have := (List.all_eq_true.mp hleaf) _ (List.getElem_mem hlt)
      simp only [Option.isNone_iff_eq_none] at this
      rw [this]
      rfl
    · rw [List.getD_eq_default]
      · rfl
      · omega

/-- Witness for C8 at a concrete operation sequence. -/
theorem c8_child_mask_witness :
    (∀ k, (runSetChildOps newNode [(3, some 7), (5, some 2), (3, none)]).child_mask.testBit k
        = ((runSetChildOps newNode [(3, some 7), (5, some 2), (3, none)]).children.getD
            k none).isSome) ∧
    ((runSetChildOps newNode [(3, some 7), (5, some 2), (3, none)]).child_mask = 0 ↔
      nodeIsLeaf (runSetChildOps newNode [(3, some 7), (5, some 2), (3, none)]) = true) :=
  c8_child_mask [(3, some 7), (5, some 2), (3, none)] (by decide)

/-- C6 (amended): a multi-resolution occupancy block begins with
`current_scale = log2(BlockSize)` (the single-voxel coarsest scale) and
`min_scale = -1`, but a multi-resolution TSDF block begins with
`current_scale = -1` (see the counterexample). The first fusion into an
occupancy block sets `current_scale` to the recommended scale; it also sets
`min_scale` to it when that scale is finer than the coarsest scale, but when
the recommended scale equals `log2(BlockSize)` the `allocateDownTo` guard
makes it a no-op and `min_scale` stays -1. -/
theorem c6_block_initial_scales (maxScale : ℕ) (d : OccData) (block_size : ℕ) (r : ℤ) :
    (mkOccBlock maxScale d).current_scale = (maxScale : ℤ) ∧
    (mkOccBlock maxScale d).min_scale = -1 ∧
    (mkTsdfBlockScales block_size).current_scale = -1 ∧
    (mkTsdfBlockScales block_size).min_scale = -1 ∧
    (updateBlockFreshBranch (mkOccBlock maxScale d) r).current_scale = r ∧
    (r < (maxScale : ℤ) → (updateBlockFreshBranch (mkOccBlock maxScale d) r).min_scale = r) ∧
    ((maxScale : ℤ) ≤ r → (updateBlockFreshBranch (mkOccBlock maxScale d) r).min_scale = -1) := by
  refine ⟨rfl, rfl, rfl, rfl, updateBlockFresh_current_scale _ r, ?_, ?_⟩
  · intro h
    rw [updateBlockFresh_min_scale]
    simp only [allocateDownTo, mkOccBlock]
    rw [if_neg (not_le.mpr h)]
  · intro h
    rw [updateBlockFresh_min_scale]
    simp only [allocateDownTo, mkOccBlock]
    rw [if_pos h]

/-- Witness for C6 at concrete inputs: first fusion of an 8-voxel-edge block
at recommended scale 2 sets `min_scale = 2`; at recommended scale 3 (the
coarsest) `min_scale` stays -1. -/
theorem c6_block_initial_scales_witness :
    (updateBlockFreshBranch (mkOccBlock 3 defaultOccData) 2).min_scale = 2 ∧
    (updateBlockFreshBranch (mkOccBlock 3 defaultOccData) 3).min_scale = -1 :=
  ⟨(c6_block_initial_scales 3 defaultOccData 8 2).2.2.2.2.2.1 (by decide),
   (c6_block_initial_scales 3 defaultOccData 8 3).2.2.2.2.2.2 (by decide)⟩

/-- Counterexample for C6 as stated: a TSDF multi-resolution block of edge 8
begins with `current_scale = -1`, not `log2(8) = 3`; and the first fusion of
an occupancy block at the coarsest recommended scale leaves `min_scale = -1`
instead of setting it to the chosen scale. -/
theorem c6_counterexample :
    (mkTsdfBlockScales 8).current_scale = -1 ∧
    sizeToScale 8 = 3 ∧
    (mkTsdfBlockScales 8).current_scale ≠ sizeToScale 8 ∧
    (updateBlockFreshBranch (mkOccBlock 3 defaultOccData) 3).current_scale = 3 ∧
    (updateBlockFreshBranch (mkOccBlock 3 defaultOccData) 3).min_scale = -1 ∧
    (updateBlockFreshBranch (mkOccBlock 3 defaultOccData) 3).min_scale ≠ 3 := by
  refine ⟨rfl, by decide, by decide, by decide, by decide, by decide⟩

/-- Helper: reading one voxel of the observed-state walk of `switchData`
yields the fix-up of the old voxel (out-of-range reads give the default on
both sides). -/
theorem getD_obsWalk (arr : List OccData) (n i : ℕ) (hi : i < n) :
    ((arr.take n).map obsFix ++ arr.drop n).getD i defaultOccData
      = obsFix (arr.getD i defaultOccData) := by
  rw [List.getD, List.getD, List.get?_eq_getElem?, List.get?_eq_getElem?]
  by_cases hl : i < arr.length
  · have hfst : i < ((arr.take n).map obsFix).length := by
      simp [List.length_take]
      omega
    rw [List.getElem?_append_left hfst, List.getElem?_map, List.getElem?_take, if_pos hi,
      List.getElem?_eq_getElem hl]
    simp
  · have hfl : ((arr.take n).map obsFix).length = arr.length := by
      simp [List.length_take]
      omega
    have h1 : arr[i]? = none := List.getElem?_eq_none (by omega)
    rw [h1, List.getElem?_append_right (by omega), List.drop_eq_nil_of_le (by omega)]
    simp [obsFix, defaultOccData]

/-- Helper: field-level description of the observed-state fix-up. -/
theorem obsFix_fields (d : OccData) :
    (obsFix d).occupancy = d.occupancy ∧ (obsFix d).weight = d.weight ∧
    (obsFix d).observed = (d.observed || decide (0 < d.weight)) := by
  by_cases h1 : 0 < d.weight <;> by_cases h2 : d.observed <;>
    simp [obsFix, h1, h2]

/-- Helper: setting an element before the last of an appended singleton keeps
the last element. -/
theorem getLast_set_append (l : List ℕ) (x i v : ℕ) (h : i < l.length) :
    ((l ++ [x]).set i v).getLast? = some x := by
  rw [List.set_append_left i v h]
  simp

/-- Helper: reading back an in-bounds list update. -/
theorem getD_set_self_nat (l : List ℕ) (i v : ℕ) (h : i < l.length) :
    (l.set i v).getD i 0 = v := by
  simp [List.getD, List.getElem?_set_self, h]

/-- Helper: heap reads below the old length are unaffected by appending two
fresh arrays. -/
theorem getD_heap_append2 (H : List (List OccData)) (A B : List OccData) (bp : ℕ)
    (h : bp < H.length) : (H ++ [A, B]).getD bp [] = H.getD bp [] := by
  rw [List.getD, List.getD, List.get?_eq_getElem?, List.get?_eq_getElem?,
    List.getElem?_append_left h]

/-- Helper: the first appended array is read back at index `H.length` even
after an update at a smaller index. -/
theorem getD_set_append2_fst (H : List (List OccData)) (A B w : List OccData) (bp : ℕ)
    (h : bp < H.length) :
    ((H ++ [A, B]).set bp w).getD H.length [] = A := by
  rw [List.getD, List.get?_eq_getElem?, List.getElem?_set_ne (by omega),
    List.getElem?_append_right (le_refl H.length)]
  simp

/-- Helper: the second appended array is read back at index `H.length + 1`
even after an update at a smaller index. -/
theorem getD_set_append2_snd (H : List (List OccData)) (A B w : List OccData) (bp : ℕ)
    (h : bp < H.length) :
    ((H ++ [A, B]).set bp w).getD (H.length + 1) [] = B := by
  rw [List.getD, List.get?_eq_getElem?, List.getElem?_set_ne (by omega),
    List.getElem?_append_right (by omega)]
  have : H.length + 1 - H.length = 1 := by omega
  rw [this]
  simp

/-- Helper: reading back an in-bounds heap update. -/
theorem getD_set_bp (H : List (List OccData)) (w : List OccData) (bp : ℕ)
    (h : bp < H.length) : (H.set bp w).getD bp [] = w := by
  simp [List.getD, List.getElem?_set_self, h]

/-- Helper: updating the slot of a just-appended element replaces it. -/
theorem set_append_len (l : List ℕ) (x v : ℕ) :
    (l ++ [x]).set l.length v = l ++ [v] := by
  rw [List.set_append_right _ _ (le_refl l.length)]
  simp

/-- Helper: the last entry after updating the just-appended slot is the
update value, not the appended one. -/
theorem getLast_set_append_len (l : List ℕ) (x v : ℕ) :
    ((l ++ [x]).set l.length v).getLast? = some v := by
  rw [set_append_len]
  simp

/-- Helper: entries below the appended slot survive an update of the appended
slot. -/
theorem getD_set_append_len (l : List ℕ) (x v j : ℕ) (h : j < l.length) :
    ((l ++ [x]).set l.length v).getD j 0 = l.getD j 0 := by
  rw [set_append_len, List.getD, List.getD, List.get?_eq_getElem?, List.get?_eq_getElem?,
    List.getElem?_append_left h]

/-- C1 (amended): the scale-switch protocol of a multi-resolution occupancy
block. `switchData` succeeds exactly when `buffer_integr_count ≥ 20` and the
buffer observation coverage is at least 0.9 of the current coverage (in
finest-voxel equivalents). On success with a buffer exactly one scale finer
than the current scale, the buffer array becomes the new finest level of all
three stacks (`data_`, `min_data_`, `max_data_` all alias it), two fresh
arrays sized for the previously finest scale are installed as that scale's
min/max data, both `current_scale` and `min_scale` become the buffer scale,
every buffer voxel with positive weight gets its observed bit set (others are
unchanged), the buffer counts (after the observed fix-up) are copied into the
current counts, and the buffer is cleared. When the buffer is two scales
finer — reachable through the free-space fast-integration path — only the
mean stack receives the buffer as its new finest level: the fresh min/max
arrays are written into the just-pushed slot (the slot of scale
`buffer_scale + 1`, `block_impl.hpp` lines 694-698), so the min and max
stacks do not alias the buffer and the previously finest min/max entries are
left untouched; `current_scale` and `min_scale` are still set to the buffer
scale. On failure the call returns false and the block state — both the
current-scale and the buffer working copies — is completely unchanged, so the
next frame can retry. -/
theorem c1_switch_data (b : OccBlock) (bp : ℕ)
    (hbp : b.buffer_data = some bp)
    (hbs : 0 ≤ b.buffer_scale)
    (hcs : b.current_scale ≤ (b.maxScale : ℤ))
    (hlen : b.min_data_.length = b.maxScale + 1 - b.current_scale.toNat)
    (hlen2 : b.max_data_.length = b.maxScale + 1 - b.current_scale.toNat)
    (hptr : ∀ p ∈ b.data_ ++ b.min_data_ ++ b.max_data_, p < b.heap.length)
    (hbplt : bp < b.heap.length) :
    ((switchData b).1 = true ↔ switchCondition b) ∧
    (¬switchCondition b → switchData b = (false, b)) ∧
    (switchCondition b → b.buffer_scale + 1 = b.current_scale →
      ((switchData b).2.data_ = b.data_ ++ [bp] ∧
       (switchData b).2.min_data_.getLast? = some bp ∧
       (switchData b).2.max_data_.getLast? = some bp ∧
       (switchData b).2.min_data_.getD (b.maxScale - b.current_scale.toNat) 0 = b.heap.length ∧
       (switchData b).2.max_data_.getD (b.maxScale - b.current_scale.toNat) 0
          = b.heap.length + 1 ∧
       b.heap.length ∉ b.data_ ++ b.min_data_ ++ b.max_data_ ∧
       b.heap.length + 1 ∉ b.data_ ++ b.min_data_ ++ b.max_data_ ∧
       b.heap.length ≠ bp ∧ b.heap.length + 1 ≠ bp ∧
       ((switchData b).2.heap.getD b.heap.length []).length
          = numVoxelsAtScale b.maxScale (b.buffer_scale + 1) ∧
       ((switchData b).2.heap.getD (b.heap.length + 1) []).length
          = numVoxelsAtScale b.maxScale (b.buffer_scale + 1) ∧
       (switchData b).2.current_scale = b.buffer_scale ∧
       (switchData b).2.min_scale = b.buffer_scale ∧
       (∀ i, i < numVoxelsAtScale b.maxScale b.buffer_scale →
         (((switchData b).2.heap.getD bp []).getD i defaultOccData).occupancy
             = ((b.heap.getD bp []).getD i defaultOccData).occupancy ∧
         (((switchData b).2.heap.getD bp []).getD i defaultOccData).weight
             = ((b.heap.getD bp []).getD i defaultOccData).weight ∧
         (((switchData b).2.heap.getD bp []).getD i defaultOccData).observed
             = (((b.heap.getD bp []).getD i defaultOccData).observed
                || decide (0 < ((b.heap.getD bp []).getD i defaultOccData).weight))) ∧
       (switchData b).2.curr_integr_count = b.buffer_integr_count ∧
       (switchData b).2.curr_observed_count
          = b.buffer_observed_count
            + missedObservedCount
                ((b.heap.getD bp []).take (numVoxelsAtScale b.maxScale b.buffer_scale)) ∧
       (switchData b).2.buffer_data = none ∧
       (switchData b).2.buffer_scale = -1 ∧
       (switchData b).2.buffer_integr_count = 0 ∧
       (switchData b).2.buffer_observed_count = 0)) ∧
    (switchCondition b → b.buffer_scale + 2 = b.current_scale →
      ((switchData b).2.data_ = b.data_ ++ [bp] ∧
       (switchData b).2.min_data_.getLast? = some b.heap.length ∧
       (switchData b).2.max_data_.getLast? = some (b.heap.length + 1) ∧
       b.heap.length ≠ bp ∧ b.heap.length + 1 ≠ bp ∧
       (switchData b).2.min_data_.getD (b.maxScale - b.current_scale.toNat) 0
          = b.min_data_.getD (b.maxScale - b.current_scale.toNat) 0 ∧
       (switchData b).2.max_data_.getD (b.maxScale - b.current_scale.toNat) 0
          = b.max_data_.getD (b.maxScale - b.current_scale.toNat) 0 ∧
       (switchData b).2.current_scale = b.buffer_scale ∧
       (switchData b).2.min_scale = b.buffer_scale)) := by
  refine ⟨?_, ?_, ?_, ?_⟩
  · by_cases hc : switchCondition b
    · simp only [switchData, if_pos hc, hbp]
      simp [hc]
    · simp only [switchData, if_neg hc]
      simp [hc]
  · intro hc
    simp only [switchData, if_neg hc]
  · intro hc hf
    have hlt : b.buffer_scale < b.current_scale := by omega
    have hcn : (b.buffer_scale + 1).toNat = b.current_scale.toNat := by omega
    have hcs1 : 1 ≤ b.current_scale.toNat := by omega
    have hcsm : b.current_scale.toNat ≤ b.maxScale := by omega
    have hidx : b.maxScale - (b.buffer_scale + 1).toNat = b.maxScale - b.current_scale.toNat := by
      omega
    have hidxm : b.maxScale - b.current_scale.toNat < b.min_data_.length := by omega
    have hidxm2 : b.maxScale - b.current_scale.toNat < b.max_data_.length := by omega
    refine ⟨?_, ?_, ?_, ?_, ?_, ?_, ?_, ?_, ?_, ?_, ?_, ?_, ?_, ?_, ?_, ?_, ?_, ?_, ?_, ?_⟩
    all_goals try first
      | (intro hm; exact absurd (hptr _ hm) (by omega))
      | omega
    all_goals unfold switchData
    all_goals rw [if_pos hc, hbp]
    all_goals simp only [if_pos hlt]
    · rw [hidx]
      exact getLast_set_append _ _ _ _ hidxm
    · rw [hidx]
      exact getLast_set_append _ _ _ _ hidxm2
    · rw [hidx]
      exact getD_set_self_nat _ _ _ (by simp; omega)
    · rw [hidx]
      exact getD_set_self_nat _ _ _ (by simp; omega)
    · rw [getD_set_append2_fst _ _ _ _ _ hbplt]
      simp
    · rw [getD_set_append2_snd _ _ _ _ _ hbplt]
      simp
    · intro i hi
      rw [getD_set_bp _ _ _ (by simp; omega), getD_heap_append2 _ _ _ _ hbplt,
        getD_obsWalk _ _ _ hi]
      exact obsFix_fields _
    · rw [getD_heap_append2 _ _ _ _ hbplt]
  · intro hc hf2
    have hlt : b.buffer_scale < b.current_scale := by omega
    have hidx : b.maxScale - (b.buffer_scale + 1).toNat = b.min_data_.length := by omega
    have hidx2 : b.maxScale - (b.buffer_scale + 1).toNat = b.max_data_.length := by omega
    have hjlt : b.maxScale - b.current_scale.toNat < b.min_data_.length := by omega
    have hjlt2 : b.maxScale - b.current_scale.toNat < b.max_data_.length := by omega
    refine ⟨?_, ?_, ?_, by omega, by omega, ?_, ?_, ?_, ?_⟩
    all_goals unfold switchData
    all_goals rw [if_pos hc, hbp]
    all_goals simp only [if_pos hlt]
    · rw [hidx]
      exact getLast_set_append_len _ _ _
    · rw [hidx2]
      exact getLast_set_append_len _ _ _
    · rw [hidx]
      exact getD_set_append_len _ _ _ _ hjlt
    · rw [hidx2]
      exact getD_set_append_len _ _ _ _ hjlt2

/-- Witness for C1: a successful finer-scale switch on a concrete block. -/
theorem c1_switch_data_witness :
    switchCondition c1DemoBlock ∧
    (switchData c1DemoBlock).1 = true ∧
    (switchData c1DemoBlock).2.data_ = c1DemoBlock.data_ ++ [1] ∧
    (switchData c1DemoBlock).2.min_data_.getLast? = some 1 ∧
    (switchData c1DemoBlock).2.max_data_.getLast? = some 1 ∧
    (switchData c1DemoBlock).2.current_scale = 0 ∧
    (switchData c1DemoBlock).2.min_scale = 0 ∧
    (switchData c1DemoBlock).2.curr_integr_count = 20 ∧
    (switchData c1DemoBlock).2.buffer_data = none := by
  have hc : switchCondition c1DemoBlock := by decide
  have h := c1_switch_data c1DemoBlock 1 rfl (by decide) (by decide) (by decide) (by decide)
    (by decide) (by decide)
  obtain ⟨w1, w2, w3, w4, w5, w6, w7, w8, w9, w10, w11, w12, w13, w14, w15, w16, w17, w18,
    w19, w20⟩ := h.2.2.1 hc (by decide)
  exact ⟨hc, h.1.mpr hc, w1, w2, w3, by rw [w12]; rfl, by rw [w13]; rfl, by rw [w15]; rfl, w17⟩

/-- Counterexample for C1 as stated: a block whose buffer sits two scales
finer than the current scale (as the free-space fast-integration path
produces) passes the switch test, and the switch succeeds; the buffer
(pointer 1) becomes the finest level of the mean stack only — the min and max
stacks end with the two fresh arrays (pointers 2 and 3) because the code
overwrites the just-pushed slot — and the previously finest min/max entries
(slot 0, still pointer 0) receive no fresh arrays. This refutes the claimed
all-three aliasing and the claimed placement of the fresh arrays at the
previously finest scale. -/
theorem c1_counterexample :
    switchCondition c1GapBlock ∧
    (switchData c1GapBlock).1 = true ∧
    (switchData c1GapBlock).2.data_.getLast? = some 1 ∧
    (switchData c1GapBlock).2.min_data_.getLast? = some 2 ∧
    (switchData c1GapBlock).2.max_data_.getLast? = some 3 ∧
    (switchData c1GapBlock).2.min_data_.getLast? ≠ some 1 ∧
    (switchData c1GapBlock).2.max_data_.getLast? ≠ some 1 ∧
    (switchData c1GapBlock).2.min_data_.getD 0 0 = c1GapBlock.min_data_.getD 0 0 ∧
    (switchData c1GapBlock).2.max_data_.getD 0 0 = c1GapBlock.max_data_.getD 0 0 := by
  refine ⟨by decide, by decide, by decide, by decide, by decide, by decide, by decide,
    by decide, by decide⟩

/-- Helper: trilinear interpolation of a constant is that constant. -/
theorem trilinear_const (tx ty tz q : ℚ) : trilinear tx ty tz (fun _ => q) = q := by
  unfold trilinear
  ring

/-- Helper: the eight gathered samples of a node all equal its single stored
value, so the interpolated value is that value. -/
theorem trilinear_replicate (tx ty tz : ℚ) (gv : OccData → ℚ) (c : OccData) :
    trilinear tx ty tz (fun k => gv ((List.replicate 8 c).getD k defaultOccData)) = gv c := by
  have h : ∀ k, k < 8 → (List.replicate 8 c).getD k defaultOccData = c := by
    intro k hk
    rw [List.getD, List.get?_eq_getElem?, List.getElem?_replicate, if_pos hk]
    rfl
  unfold trilinear
  beta_reduce
  rw [h 0 (by omega), h 1 (by omega), h 2 (by omega), h 3 (by omega), h 4 (by omega),
    h 5 (by omega), h 6 (by omega), h 7 (by omega)]
  ring

/-- Helper: the interp scale loop returns the value at the first scale whose
gather succeeds, provided every AABB test passes, the gathered data is valid
and every earlier scale's gather fails. -/
theorem interpLoop_reaches (aabbOk : ℤ → Bool) (gather : ℤ → Option (List OccData))
    (valid : OccData → Bool) (gv : OccData → ℚ) (tOf : ℤ → ℚ × ℚ × ℚ) (retScale : ℤ → ℤ)
    (s0 : ℤ) (ds : List OccData)
    (ha : ∀ s, aabbOk s = true) (hg : gather s0 = some ds) (hv : ds.all valid = true) :
    ∀ (fuel : ℕ) (s : ℤ), s ≤ s0 → s0 < s + fuel →
      (∀ u, s ≤ u → u < s0 → gather u = none) →
      interpLoop aabbOk gather valid gv tOf retScale fuel s
        = some (trilinear (tOf s0).1 (tOf s0).2.1 (tOf s0).2.2
            (fun k => gv (ds.getD k defaultOccData)), retScale s0) := by
  intro fuel
  induction fuel with
  | zero => intro s h1 h2 _; omega
  | succ n ih =>
      intro s h1 h2 hnone
      simp only [interpLoop, ha s]
      by_cases hs : s = s0
      · subst hs
        simp [hg, hv]
      · rw [hnone s le_rfl (by omega)]
        exact ih (s + 1) (by omega) (by omega) (fun u hu1 hu2 => hnone u (by omega) hu2)

/-- Helper: the interp scale loop returns nothing when every gather in range
fails (whatever the AABB tests say). -/
theorem interpLoop_none (aabbOk : ℤ → Bool) (gather : ℤ → Option (List OccData))
    (valid : OccData → Bool) (gv : OccData → ℚ) (tOf : ℤ → ℚ × ℚ × ℚ) (retScale : ℤ → ℤ) :
    ∀ (fuel : ℕ) (s : ℤ), (∀ u, s ≤ u → gather u = none) →
      interpLoop aabbOk gather valid gv tOf retScale fuel s = none := by
  intro fuel
  induction fuel with
  | zero => intro s _; rfl
  | succ n ih =>
      intro s h
      simp only [interpLoop]
      by_cases ha : aabbOk s = false
      · rw [if_pos ha]
      · rw [if_neg ha, h s le_rfl]
        exact ih (s + 1) (fun u hu => h u (by omega))

/-- Helper: the gradient scale loop returns the gradient at the first scale
with a fully valid 32-point gather, when every probed scale fetches a
block. -/
theorem gradLoop_reaches (fetchAt : ℤ → GradFetch) (samples : ℤ → Option (List ℚ))
    (gradValue : ℤ → List ℚ → ℚ × ℚ × ℚ) (cs s0 : ℤ) (ds : List ℚ)
    (hf : ∀ s, fetchAt s = GradFetch.block cs) (hs : samples s0 = some ds) :
    ∀ (fuel : ℕ) (s : ℤ), s ≤ s0 → s0 < s + fuel →
      (∀ u, s ≤ u → u < s0 → samples u = none) →
      gradLoop fetchAt samples gradValue fuel s = some (gradValue s0 ds, s0) := by
  intro fuel
  induction fuel with
  | zero => intro s h1 h2 _; omega
  | succ n ih =>
      intro s h1 h2 hnone
      simp only [gradLoop, hf s]
      by_cases hss : s = s0
      · subst hss
        simp [hs]
      · rw [hnone s le_rfl (by omega)]
        exact ih (s + 1) (by omega) (by omega) (fun u hu1 hu2 => hnone u (by omega) hu2)

/-- Helper: the gradient scale loop returns nothing when every scale in range
hits one of the three retry paths — a missing octant, an unusable node, or a
failed 32-point gather — until the fuel (the scale range) runs out. -/
theorem gradLoop_none (fetchAt : ℤ → GradFetch) (samples : ℤ → Option (List ℚ))
    (gradValue : ℤ → List ℚ → ℚ × ℚ × ℚ) :
    ∀ (fuel : ℕ) (s : ℤ),
      (∀ u, s ≤ u →
        fetchAt u = GradFetch.missing ∨
        (∃ lf dv sz, fetchAt u = GradFetch.node lf dv sz ∧ ¬(lf = true ∧ dv = true)) ∨
        (∃ cs, fetchAt u = GradFetch.block cs ∧ samples u = none)) →
      gradLoop fetchAt samples gradValue fuel s = none := by
  intro fuel
  induction fuel with
  | zero => intro s _; rfl
  | succ n ih =>
      intro s h
      rcases h s le_rfl with h1 | ⟨lf, dv, sz, h1, h2⟩ | ⟨cs, h1, h2⟩
      · simp only [gradLoop, h1]
        exact ih (s + 1) (fun u hu => h u (by omega))
      · simp only [gradLoop, h1, if_neg h2]
        exact ih (s + 1) (fun u hu => h u (by omega))
      · simp only [gradLoop, h1, h2]
        exact ih (s + 1) (fun u hu => h u (by omega))

/-- C5: the multi-resolution fall-up of the interpolation and gradient
visitors. For a query in a block, a failed neighbour gather at the desired
scale retries at `scale + 1` up to the block's maximum scale and the first
fully-valid gather is returned; if every gather in the range fails the query
returns nothing, for the gradient as well as for the interpolation. For a
query landing in a leaf node above the block level, the all-local neighbour
gather runs `gather_local` on the node, which fills all eight samples with
the node's single stored value, so with valid node data the interpolated
value is exactly that stored value (reported at the node's scale
`size_to_scale(size)`), while invalid node data aborts the query; the
gradient visitor reports the zero vector at the node's scale for valid node
data and nothing otherwise. -/
theorem c5_multires_fallup (maxScale : ℤ) :
    (∀ (aabbOk : ℤ → Bool) (fetch : ℤ → NeighbourFetch) (valid : OccData → Bool)
        (gv : OccData → ℚ) (tOf : ℤ → ℚ × ℚ × ℚ) (current_scale desired s0 : ℤ)
        (ds : List OccData),
      (∀ s, aabbOk s = true) →
      max current_scale desired ≤ s0 → s0 ≤ maxScale →
      (∀ s, max current_scale desired ≤ s → s < s0 → getNeighbours s (fetch s) = none) →
      getNeighbours s0 (fetch s0) = some ds → ds.all valid = true →
      interpImplMulti maxScale (.block current_scale) aabbOk fetch valid gv tOf desired
        = some (trilinear (tOf s0).1 (tOf s0).2.1 (tOf s0).2.2
            (fun k => gv (ds.getD k defaultOccData)), s0)) ∧
    (∀ (aabbOk : ℤ → Bool) (fetch : ℤ → NeighbourFetch) (valid : OccData → Bool)
        (gv : OccData → ℚ) (tOf : ℤ → ℚ × ℚ × ℚ) (current_scale desired : ℤ),
      (∀ s, max current_scale desired ≤ s → getNeighbours s (fetch s) = none) →
      interpImplMulti maxScale (.block current_scale) aabbOk fetch valid gv tOf desired
        = none) ∧
    (∀ (size : ℕ) (nd : OccData) (aabbOk : ℤ → Bool) (fetch : ℤ → NeighbourFetch)
        (valid : OccData → Bool) (gv : OccData → ℚ) (tOf : ℤ → ℚ × ℚ × ℚ) (desired : ℤ),
      0 ≤ maxScale →
      (∀ s, aabbOk s = true) →
      fetch 0 = NeighbourFetch.allLocal (GatherLeaf.node nd) →
      (valid nd = true →
        interpImplMulti maxScale (.node size nd) aabbOk fetch valid gv tOf desired
          = some (gv nd, sizeToScale size)) ∧
      (valid nd = false →
        interpImplMulti maxScale (.node size nd) aabbOk fetch valid gv tOf desired
          = none)) ∧
    (∀ (lf : Bool) (size : ℕ) (fetchAt : ℤ → GradFetch) (samples : ℤ → Option (List ℚ))
        (gradValue : ℤ → List ℚ → ℚ × ℚ × ℚ) (desired : ℤ),
      gradImplMulti maxScale (.node lf true size) fetchAt samples gradValue desired
        = some ((0, 0, 0), sizeToScale size) ∧
      gradImplMulti maxScale (.node lf false size) fetchAt samples gradValue desired
        = none) ∧
    (∀ (fetchAt : ℤ → GradFetch) (samples : ℤ → Option (List ℚ))
        (gradValue : ℤ → List ℚ → ℚ × ℚ × ℚ) (current_scale desired s0 : ℤ) (ds : List ℚ),
      (∀ s, fetchAt s = GradFetch.block current_scale) →
      max desired current_scale ≤ s0 → s0 ≤ maxScale →
      (∀ s, max desired current_scale ≤ s → s < s0 → samples s = none) →
      samples s0 = some ds →
      gradImplMulti maxScale (.block current_scale) fetchAt samples gradValue desired
        = some (gradValue s0 ds, s0)) ∧
    (∀ (fetchAt : ℤ → GradFetch) (samples : ℤ → Option (List ℚ))
        (gradValue : ℤ → List ℚ → ℚ × ℚ × ℚ) (current_scale desired : ℤ),
      (∀ s, max desired current_scale ≤ s →
        fetchAt s = GradFetch.missing ∨
        (∃ lf dv sz, fetchAt s = GradFetch.node lf dv sz ∧ ¬(lf = true ∧ dv = true)) ∨
        (∃ cs, fetchAt s = GradFetch.block cs ∧ samples s = none)) →
      gradImplMulti maxScale (.block current_scale) fetchAt samples gradValue desired
        = none) := by
  refine ⟨?_, ?_, ?_, ?_, ?_, ?_⟩
  · intro aabbOk fetch valid gv tOf current_scale desired s0 ds ha h0 h1 hfail hg hv
    show interpLoop aabbOk (fun s => getNeighbours s (fetch s)) valid gv tOf (fun s => s)
        (maxScale - max current_scale desired + 1).toNat (max current_scale desired) = _
    exact interpLoop_reaches aabbOk (fun s => getNeighbours s (fetch s)) valid gv tOf
      (fun s => s) s0 ds ha hg hv _ _ h0 (by omega) hfail
  · intro aabbOk fetch valid gv tOf current_scale desired hfail
    exact interpLoop_none aabbOk (fun s => getNeighbours s (fetch s)) valid gv tOf
      (fun s => s) _ _ hfail
  · intro size nd aabbOk fetch valid gv tOf desired hm ha hf
    have hg : getNeighbours 0 (fetch 0) = some (List.replicate 8 nd) := by
      rw [hf]; rfl
    constructor
    · intro hv
      show interpLoop aabbOk (fun s => getNeighbours s (fetch s)) valid gv tOf
          (fun _ => sizeToScale size) (maxScale + 1).toNat 0 = _
      rw [interpLoop_reaches aabbOk (fun s => getNeighbours s (fetch s)) valid gv tOf
        (fun _ => sizeToScale size) 0 (List.replicate 8 nd) ha hg (by simp [hv]) _ 0
        le_rfl (by omega) (fun u hu1 hu2 => absurd hu2 (by omega))]
      rw [trilinear_replicate]
    · intro hv
      show interpLoop aabbOk (fun s => getNeighbours s (fetch s)) valid gv tOf
          (fun _ => sizeToScale size) (maxScale + 1).toNat 0 = none
      have hfuel : (maxScale + 1).toNat = maxScale.toNat + 1 := by omega
      have hall : (List.replicate 8 nd).all valid = false := by simp [hv]
      rw [hfuel]
      simp only [interpLoop, ha 0, hg, hall]
      simp
  · intro lf size fetchAt samples gradValue desired
    exact ⟨rfl, rfl⟩
  · intro fetchAt samples gradValue current_scale desired s0 ds hf h0 h1 hfail hs
    show gradLoop fetchAt samples gradValue
        (maxScale - max desired current_scale + 1).toNat (max desired current_scale) = _
    exact gradLoop_reaches fetchAt samples gradValue current_scale s0 ds hf hs _ _
      h0 (by omega) hfail
  · intro fetchAt samples gradValue current_scale desired hfail
    show gradLoop fetchAt samples gradValue
        (maxScale - max desired current_scale + 1).toNat (max desired current_scale) = none
    exact gradLoop_none fetchAt samples gradValue _ _ hfail

/-- Witness for C5: a concrete fall-up (gather fails at scale 1, succeeds at
scale 2), a concrete node query whose constant sample is the node's stored
occupancy, a concrete zero-gradient node query and a concrete gradient query
failing at every scale. -/
theorem c5_multires_fallup_witness :
    interpImplMulti 3 (.block 1) (fun _ => true)
        (fun s => if s = 2 then NeighbourFetch.allLocal (GatherLeaf.node defaultOccData)
          else NeighbourFetch.noBase)
        (fun _ => true) (fun d => (d.occupancy : ℚ)) (fun _ => (0, 0, 0)) 0
      = some (trilinear ((0, 0, 0) : ℚ × ℚ × ℚ).1 ((0, 0, 0) : ℚ × ℚ × ℚ).2.1
          ((0, 0, 0) : ℚ × ℚ × ℚ).2.2
          (fun k =>
            (((List.replicate 8 defaultOccData).getD k defaultOccData).occupancy : ℚ)), 2) ∧
    interpImplMulti 3 (.node 16 { occupancy := -3, weight := 2, observed := true })
        (fun _ => true)
        (fun _ => NeighbourFetch.allLocal
          (GatherLeaf.node { occupancy := -3, weight := 2, observed := true }))
        (fun d => d.observed) (fun d => (d.occupancy : ℚ)) (fun _ => (0, 0, 0)) 0
      = some ((((-3 : ℤ) : ℚ)), sizeToScale 16) ∧
    gradImplMulti 3 (.node true true 16) (fun _ => .missing) (fun _ => none)
        (fun _ _ => (0, 0, 0)) 0 = some ((0, 0, 0), sizeToScale 16) ∧
    gradImplMulti 3 (.block 1) (fun _ => GradFetch.block 1) (fun _ => none)
        (fun _ _ => (0, 0, 0)) 0 = none := by
  refine ⟨?_, ?_, ?_, ?_⟩
  · exact (c5_multires_fallup 3).1 (fun _ => true)
      (fun s => if s = 2 then NeighbourFetch.allLocal (GatherLeaf.node defaultOccData)
        else NeighbourFetch.noBase)
      (fun _ => true) (fun d => (d.occupancy : ℚ)) (fun _ => (0, 0, 0)) 1 0 2
      (List.replicate 8 defaultOccData) (fun _ => rfl) (by decide) (by decide)
      (fun s h1 h2 => by
        show getNeighbours s (if s = 2 then NeighbourFetch.allLocal
            (GatherLeaf.node defaultOccData) else NeighbourFetch.noBase) = none
        rw [if_neg (fun he : s = 2 => absurd (he ▸ h2) (lt_irrefl (2 : ℤ)))]
        rfl)
      (by decide) (by decide)
  · exact ((c5_multires_fallup 3).2.2.1 16 { occupancy := -3, weight := 2, observed := true }
      (fun _ => true)
      (fun _ => NeighbourFetch.allLocal
        (GatherLeaf.node { occupancy := -3, weight := 2, observed := true }))
      (fun d => d.observed) (fun d => (d.occupancy : ℚ)) (fun _ => (0, 0, 0)) 0
      (by decide) (fun _ => rfl) rfl).1 rfl
  · exact ((c5_multires_fallup 3).2.2.2.1 true 16 (fun _ => .missing) (fun _ => none)
      (fun _ _ => (0, 0, 0)) 0).1
  · exact (c5_multires_fallup 3).2.2.2.2.2 (fun _ => GradFetch.block 1) (fun _ => none)
      (fun _ _ => (0, 0, 0)) 1 0 (fun s hs => Or.inr (Or.inr ⟨1, rfl, rfl⟩))

/-! ### Octant-map lemmas for the propagation sweep (claims C3, C7) -/

/-- Helper: updating an existing id makes its record the updated one. -/
theorem lookupOct_updateOct_self (m : OctMap) (i : ℕ) (r : POctant) :
    ∀ o, lookupOct m i = some o → lookupOct (updateOct m i r) i = some r := by
  induction m with
  | nil => intro o h; simp [lookupOct] at h
  | cons a rest ih =>
      intro o h
      by_cases hk : a.1 = i
      · simp [lookupOct, updateOct, hk, List.find?]
      · simp only [lookupOct, updateOct, List.find?] at *
        rw [if_neg hk]
        simp only [List.find?_cons] at *
        have hbk : (a.1 == i) = false := by simp [hk]
        rw [hbk] at h
        simp only [List.find?_cons, hbk]
        exact ih o h

/-- Helper: updating one id leaves every other id's record unchanged. -/
theorem lookupOct_updateOct_ne (m : OctMap) (i j : ℕ) (r : POctant) (hij : j ≠ i) :
    lookupOct (updateOct m i r) j = lookupOct m j := by
  induction m with
  | nil => rfl
  | cons a rest ih =>
      by_cases hk : a.1 = i
      · subst hk
        have hbj : (a.1 == j) = false := by simp; omega
        simp [lookupOct, updateOct, List.find?_cons, hbj]
      · simp only [updateOct]
        rw [if_neg hk]
        by_cases hbj : a.1 = j
        · simp [lookupOct, List.find?_cons, hbj]
        · have hb : (a.1 == j) = false := by simp [hbj]
          simp only [lookupOct, List.find?_cons, hb] at *
          exact ih

/-- Helper: updating an absent id is a no-op. -/
theorem updateOct_of_lookup_none (m : OctMap) (i : ℕ) (r : POctant)
    (h : lookupOct m i = none) : updateOct m i r = m := by
  induction m with
  | nil => rfl
  | cons a rest ih =>
      simp only [lookupOct, List.find?_cons] at h
      by_cases hk : a.1 = i
      · simp [hk] at h
      · have hb : (a.1 == i) = false := by simp [hk]
        rw [hb] at h
        simp only [updateOct]
        rw [if_neg hk, ih h]

/-- Helper: re-writing the record an id already holds is a no-op. -/
theorem updateOct_lookup_self_eq (m : OctMap) (i : ℕ) :
    ∀ o, lookupOct m i = some o → updateOct m i o = m := by
  induction m with
  | nil => intro o h; simp [lookupOct] at h
  | cons a rest ih =>
      intro o h
      simp only [lookupOct, List.find?_cons] at h
      by_cases hk : a.1 = i
      · have hb : (a.1 == i) = true := by simp [hk]
        rw [hb] at h
        simp only [Option.map_some] at h
        simp only [updateOct]
        rw [if_pos hk]
        obtain ⟨h1, h2⟩ := a
        simp at h
        simp [← h, hk]
      · have hb : (a.1 == i) = false := by simp [hk]
        rw [hb] at h
        simp only [updateOct]
        rw [if_neg hk, ih o h]

/-- Helper: `updateOct` preserves the map's length. -/
theorem length_updateOct (m : OctMap) (i : ℕ) (r : POctant) :
    (updateOct m i r).length = m.length := by
  induction m with
  | nil => rfl
  | cons a rest ih =>
      simp only [updateOct]
      by_cases hk : a.1 = i
      · rw [if_pos hk]
        simp
      · rw [if_neg hk]
        simp only [List.length_cons, ih]

/-- Helper: a deallocated id has no record. -/
theorem lookupOct_removeOct_self (m : OctMap) (i : ℕ) :
    lookupOct (removeOct m i) i = none := by
  rw [lookupOct, removeOct, List.find?_eq_none.mpr]
  · rfl
  · intro x hx
    have := List.of_mem_filter hx
    simp at this ⊢
    omega

/-- Helper: deallocating one id does not change other ids' records. -/
theorem lookupOct_removeOct_ne (m : OctMap) (i j : ℕ) (hij : j ≠ i) :
    lookupOct (removeOct m i) j = lookupOct m j := by
  induction m with
  | nil => rfl
  | cons a rest ih =>
      rw [removeOct, List.filter_cons]
      by_cases hk : a.1 = i
      · have h1 : decide (a.1 ≠ i) = false := by simp [hk]
        rw [h1]
        have hb : (a.1 == j) = false := by simp; omega
        simp only [Bool.false_eq_true, if_false, lookupOct, List.find?_cons, hb]
        exact ih
      · have h1 : decide (a.1 ≠ i) = true := by simp [hk]
        rw [h1]
        simp only [if_true]
        by_cases hbj : a.1 = j
        · simp [lookupOct, List.find?_cons, hbj]
        · have hb : (a.1 == j) = false := by simp [hbj]
          simp only [lookupOct, List.find?_cons, hb]
          exact ih

/-- Helper: deallocations never resurrect an absent id. -/
theorem lookupOct_foldl_removeOct_none (subs : List ℕ) :
    ∀ (m : OctMap) (j : ℕ), lookupOct m j = none →
      lookupOct (subs.foldl removeOct m) j = none := by
  induction subs with
  | nil => intro m j h; exact h
  | cons a rest ih =>
      intro m j h
      simp only [List.foldl_cons]
      apply ih
      by_cases hbj : j = a
      · subst hbj; exact lookupOct_removeOct_self m j
      · rw [lookupOct_removeOct_ne m a j hbj]; exact h

/-- Helper: after deallocating a list of ids, each of them has no record. -/
theorem lookupOct_foldl_removeOct_mem (subs : List ℕ) :
    ∀ (m : OctMap) (j : ℕ), j ∈ subs → lookupOct (subs.foldl removeOct m) j = none := by
  induction subs with
  | nil => intro m j h; simp at h
  | cons a rest ih =>
      intro m j h
      simp only [List.foldl_cons]
      rcases List.mem_cons.mp h with h1 | h1
      · subst h1
        by_cases hr : j ∈ rest
        · exact ih _ j hr
        · exact lookupOct_foldl_removeOct_none rest _ j (lookupOct_removeOct_self m j)
      · exact ih _ j h1

/-- Helper: deallocating ids not containing `j` leaves `j`'s record
unchanged. -/
theorem lookupOct_foldl_removeOct_not_mem (subs : List ℕ) :
    ∀ (m : OctMap) (j : ℕ), j ∉ subs →
      lookupOct (subs.foldl removeOct m) j = lookupOct m j := by
  induction subs with
  | nil => intro m j _; rfl
  | cons a rest ih =>
      intro m j h
      simp only [List.foldl_cons]
      rw [ih _ j (fun hr => h (List.mem_cons_of_mem a hr)),
        lookupOct_removeOct_ne m a j (fun he => h (he ▸ List.mem_cons_self a rest))]

/-- Helper: an update that keeps an id's child list fixed does not change any
id's children view. -/
theorem childIds_updateOct (m : OctMap) (i : ℕ) (r : POctant) (o : POctant)
    (ho : lookupOct m i = some o) (hc : r.children = o.children) :
    ∀ j, childIds (updateOct m i r) j = childIds m j := by
  intro j
  by_cases hj : j = i
  · subst hj
    simp only [childIds, lookupOct_updateOct_self m j r o ho, ho, hc]
  · simp only [childIds, lookupOct_updateOct_ne m i j r hj]

/-- Helper: reachability only depends on the children view of the map. -/
theorem descendants_congr (m1 m2 : OctMap) (h : ∀ j, childIds m1 j = childIds m2 j) :
    ∀ (fuel : ℕ) (frontier : List ℕ),
      descendants m1 fuel frontier = descendants m2 fuel frontier := by
  have hfe : childIds m1 = childIds m2 := funext h
  intro fuel
  induction fuel with
  | zero => intro frontier; rfl
  | succ n ih =>
      intro frontier
      simp only [descendants]
      rw [ih, hfe]

/-- Helper: the propagation of one node rewrites exactly that node's record,
keeping its parent and children and stamping the timestamp. -/
theorem propagateToParentNode_shape (m : OctMap) (i : ℕ) (ts : ℤ) (o : POctant)
    (ho : lookupOct m i = some o) :
    ∃ o2 : POctant, (propagateToParentNode m i ts).1 = updateOct m i o2 ∧
      o2.children = o.children ∧ o2.parent = o.parent ∧ o2.ts = ts ∧
      o2.maxD = (propagateToParentNode m i ts).2 := by
  simp only [propagateToParentNode, ho]
  cases hcs : (o.children.filterMap id).filterMap
      (fun c => (lookupOct m c).map (fun x => (x.minD, x.maxD))) with
  | nil => exact ⟨{ o with ts := ts }, rfl, rfl, rfl, rfl, rfl⟩
  | cons c0 rest =>
      refine ⟨_, rfl, rfl, rfl, rfl, rfl⟩

/-- Helper: an id in the erased list is not in the fold result. -/
theorem not_mem_foldl_listErase (cs : List ℕ) :
    ∀ (u : List ℕ) (c : ℕ), c ∈ cs → c ∉ cs.foldl listErase u := by
  have hstay : ∀ (ds : List ℕ) (u : List ℕ) (c : ℕ), c ∉ u → c ∉ ds.foldl listErase u := by
    intro ds
    induction ds with
    | nil => intro u c h; exact h
    | cons d rest ih =>
        intro u c h
        simp only [List.foldl_cons]
        apply ih
        intro hmem
        exact h (List.mem_of_mem_filter hmem)
  induction cs with
  | nil => intro u c h; simp at h
  | cons a rest ih =>
      intro u c h
      simp only [List.foldl_cons]
      rcases List.mem_cons.mp h with h1 | h1
      · subst h1
        apply hstay
        intro hmem
        have := List.of_mem_filter hmem
        simp at this
      · exact ih _ c h1

/-- C3: the pruning branch of the bottom-up propagation sweep
(`multires_ofusion_updater_impl.hpp` lines 140-152). When a swept node (not
yet stamped this frame, with a parent) has propagated data that is observed
with field value at most `0.95 * min_occupancy` (written exactly as `100 *
field ≤ 95 * min_occupancy`), the whole subtree under it is deleted — the
node becomes a leaf with all child slots null and every subtree octant is
deallocated — and each of the node's (non-null) children is erased from the
`updated_octants` set; in the source the erasure happens before
`deleteChildren` deallocates them. The acyclicity hypothesis (the node is not
its own descendant) always holds for a real octree. -/
theorem c3_prune_step (min_occupancy ts : ℤ) (d : ℕ) (s : PState) (i par : ℕ) (o : POctant)
    (ho : lookupOct s.nodes i = some o) (hts : o.ts ≠ ts) (hp : o.parent = some par)
    (hcond : (propagateToParentNode s.nodes i ts).2.observed = true ∧
      100 * fieldVal (propagateToParentNode s.nodes i ts).2 ≤ 95 * min_occupancy)
    (hacyc : i ∉ descendants s.nodes s.nodes.length (childIds s.nodes i)) :
    (∃ o2 : POctant, lookupOct (processOctant min_occupancy ts d s i).nodes i = some o2 ∧
      o2.children = List.replicate 8 none ∧ o2.ts = ts ∧ o2.parent = some par) ∧
    (∀ j ∈ descendants s.nodes s.nodes.length (childIds s.nodes i),
      lookupOct (processOctant min_occupancy ts d s i).nodes j = none) ∧
    (∀ u, s.updated = some u →
      ∃ u2, (processOctant min_occupancy ts d s i).updated = some u2 ∧
        ∀ c ∈ o.children.filterMap id, c ∉ u2) := by
  obtain ⟨o2, hpr, hch, hpar, hts2, hmax⟩ := propagateToParentNode_shape s.nodes i ts o ho
  have hci : ∀ j, childIds (updateOct s.nodes i o2) j = childIds s.nodes j :=
    childIds_updateOct s.nodes i o2 o ho hch
  have hS : descendants (updateOct s.nodes i o2) (updateOct s.nodes i o2).length
      (childIds (updateOct s.nodes i o2) i)
      = descendants s.nodes s.nodes.length (childIds s.nodes i) := by
    rw [length_updateOct, hci i, descendants_congr _ s.nodes hci]
  have hmid : lookupOct ((descendants s.nodes s.nodes.length (childIds s.nodes i)).foldl
      removeOct (updateOct s.nodes i o2)) i = some o2 := by
    rw [lookupOct_foldl_removeOct_not_mem _ _ _ hacyc]
    exact lookupOct_updateOct_self s.nodes i o2 o ho
  have hdel : deleteChildrenAll (updateOct s.nodes i o2) i
      = updateOct ((descendants s.nodes s.nodes.length (childIds s.nodes i)).foldl
          removeOct (updateOct s.nodes i o2)) i
          { o2 with children := List.replicate 8 none } := by
    simp only [deleteChildrenAll, hS, hmid]
  have hstep : processOctant min_occupancy ts d s i =
      { nodes := deleteChildrenAll (propagateToParentNode s.nodes i ts).1 i,
        node_set := setInsertAt s.node_set (d - 1) par,
        updated := (s.updated.map (fun u => setInsert u i)).map
          (fun u => (o.children.filterMap id).foldl listErase u) } := by
    simp only [processOctant, ho]
    rw [if_neg hts]
    simp only [hp]
    rw [if_pos hcond]
  refine ⟨⟨{ o2 with children := List.replicate 8 none }, ?_, rfl, hts2, by
    show o2.parent = some par
    rw [hpar, hp]⟩, ?_, ?_⟩
  · rw [hstep]
    show lookupOct (deleteChildrenAll (propagateToParentNode s.nodes i ts).1 i) i = _
    rw [hpr, hdel]
    exact lookupOct_updateOct_self _ i _ o2 hmid
  · intro j hj
    rw [hstep]
    show lookupOct (deleteChildrenAll (propagateToParentNode s.nodes i ts).1 i) j = none
    rw [hpr, hdel, lookupOct_updateOct_ne _ i j _ (fun he => hacyc (he ▸ hj))]
    exact lookupOct_foldl_removeOct_mem _ _ j hj
  · intro u hu
    rw [hstep]
    refine ⟨(o.children.filterMap id).foldl listErase (setInsert u i), ?_, ?_⟩
    · simp [hu]
    · intro c hc
      exact not_mem_foldl_listErase _ _ c hc

/-- Witness for C3: pruning the concrete free-space node 1 deletes its eight
blocks, turns it into a leaf and removes blocks 2 and 3 from the updated
set. -/
theorem c3_prune_step_witness :
    (∃ o2 : POctant, lookupOct (processOctant (-100) 7 1 c3DemoState 1).nodes 1 = some o2 ∧
      o2.children = List.replicate 8 none ∧ o2.ts = 7 ∧ o2.parent = some 0) ∧
    lookupOct (processOctant (-100) 7 1 c3DemoState 1).nodes 2 = none ∧
    (∃ u2, (processOctant (-100) 7 1 c3DemoState 1).updated = some u2 ∧
      2 ∉ u2 ∧ 3 ∉ u2) := by
  have h := c3_prune_step (-100) 7 1 c3DemoState 1 0
    { parent := some 0,
      children := [some 2, some 3, some 4, some 5, some 6, some 7, some 8, some 9],
      minD := defaultOccData, maxD := defaultOccData, ts := 5 }
    (by decide) (by decide) rfl (by decide) (by decide)
  obtain ⟨u2, hu2, hnotin⟩ := h.2.2 [2, 3] rfl
  exact ⟨h.1, h.2.1 2 (by decide),
    ⟨u2, hu2, hnotin 2 (by decide), hnotin 3 (by decide)⟩⟩

/-- Helper: `StepRefines` is reflexive. -/
theorem stepRefines_refl (ts : ℤ) (m : OctMap) : StepRefines ts m m := by
  intro j o2 h
  exact ⟨o2, h, rfl, Or.inl rfl, fun c hc => hc⟩

/-- Helper: `StepRefines` is transitive. -/
theorem stepRefines_trans (ts : ℤ) (m1 m2 m3 : OctMap)
    (h12 : StepRefines ts m1 m2) (h23 : StepRefines ts m2 m3) : StepRefines ts m1 m3 := by
  intro j o3 h3
  obtain ⟨o2, h2, hp2, ht2, hc2⟩ := h23 j o3 h3
  obtain ⟨o1, h1, hp1, ht1, hc1⟩ := h12 j o2 h2
  refine ⟨o1, h1, hp2.trans hp1, ?_, fun c hc => hc1 c (hc2 c hc)⟩
  rcases ht2 with h | h
  · rcases ht1 with h1t | h1t
    · exact Or.inl (h.trans h1t)
    · exact Or.inr (h.trans h1t)
  · exact Or.inr h

/-- Helper: inertness survives any refining step. -/
theorem inert_of_stepRefines (ts : ℤ) (m m2 : OctMap) (i : ℕ)
    (hi : InertOct ts m i) (hr : StepRefines ts m m2) : InertOct ts m2 i := by
  intro o2 h2
  obtain ⟨o, h, hp, ht, _⟩ := hr i o2 h2
  rcases hi o h with hts | hpar
  · rcases ht with h1 | h1
    · exact Or.inl (h1.trans hts)
    · exact Or.inl h1
  · exact Or.inr (hp.trans hpar)

/-- Helper: deallocating an id is a refining step. -/
theorem stepRefines_removeOct (ts : ℤ) (m : OctMap) (i : ℕ) :
    StepRefines ts m (removeOct m i) := by
  intro j o2 h2
  by_cases hij : j = i
  · subst hij
    rw [lookupOct_removeOct_self] at h2
    exact absurd h2 (by simp)
  · rw [lookupOct_removeOct_ne m i j hij] at h2
    exact ⟨o2, h2, rfl, Or.inl rfl, fun c hc => hc⟩

/-- Helper: deallocating a list of ids is a refining step. -/
theorem stepRefines_foldl_removeOct (ts : ℤ) (subs : List ℕ) :
    ∀ m : OctMap, StepRefines ts m (subs.foldl removeOct m) := by
  induction subs with
  | nil => intro m; exact stepRefines_refl ts m
  | cons a rest ih =>
      intro m
      exact stepRefines_trans ts m (removeOct m a) _ (stepRefines_removeOct ts m a) (ih _)

/-- Helper: an in-place rewrite that keeps the parent, keeps or stamps the
timestamp and shrinks the children is a refining step. -/
theorem stepRefines_updateOct (ts : ℤ) (m : OctMap) (i : ℕ) (o o2 : POctant)
    (ho : lookupOct m i = some o) (hp : o2.parent = o.parent)
    (ht : o2.ts = o.ts ∨ o2.ts = ts)
    (hc : ∀ c ∈ o2.children.filterMap id, c ∈ o.children.filterMap id) :
    StepRefines ts m (updateOct m i o2) := by
  intro j r h2
  by_cases hij : j = i
  · subst hij
    rw [lookupOct_updateOct_self m j o2 o ho] at h2
    obtain rfl : o2 = r := by injection h2
    exact ⟨o, ho, hp, ht, hc⟩
  · rw [lookupOct_updateOct_ne m i j o2 hij] at h2
    exact ⟨r, h2, rfl, Or.inl rfl, fun c hcc => hcc⟩

/-- Helper: the propagation of one node is a refining step. -/
theorem stepRefines_propagateToParentNode (ts : ℤ) (m : OctMap) (i : ℕ) :
    StepRefines ts m (propagateToParentNode m i ts).1 := by
  cases ho : lookupOct m i with
  | none =>
      have : (propagateToParentNode m i ts).1 = m := by
        simp only [propagateToParentNode, ho]
      rw [this]
      exact stepRefines_refl ts m
  | some o =>
      obtain ⟨o2, hpr, hch, hpar, hts2, _⟩ := propagateToParentNode_shape m i ts o ho
      rw [hpr]
      exact stepRefines_updateOct ts m i o o2 ho hpar (Or.inr hts2)
        (fun c hc => by rw [hch] at hc; exact hc)

/-- Helper: recursive child deletion is a refining step. -/
theorem stepRefines_deleteChildrenAll (ts : ℤ) (m : OctMap) (i : ℕ) :
    StepRefines ts m (deleteChildrenAll m i) := by
  cases hm : lookupOct ((descendants m m.length (childIds m i)).foldl removeOct m) i with
  | none =>
      have he : deleteChildrenAll m i =
          (descendants m m.length (childIds m i)).foldl removeOct m := by
        simp only [deleteChildrenAll, hm]
      rw [he]
      exact stepRefines_foldl_removeOct ts _ m
  | some o =>
      have he : deleteChildrenAll m i =
          updateOct ((descendants m m.length (childIds m i)).foldl removeOct m) i
            { o with children := List.replicate 8 none } := by
        simp only [deleteChildrenAll, hm]
      rw [he]
      exact stepRefines_trans ts m _ _ (stepRefines_foldl_removeOct ts _ m)
        (stepRefines_updateOct ts _ i o { o with children := List.replicate 8 none } hm rfl
          (Or.inl rfl) (fun c hc => by simp at hc))

/-- Helper: one sweep-loop body is a refining step on the octant map. -/
theorem stepRefines_processOctant (mo ts : ℤ) (d : ℕ) (s : PState) (i : ℕ) :
    StepRefines ts s.nodes (processOctant mo ts d s i).nodes := by
  cases ho : lookupOct s.nodes i with
  | none => simp only [processOctant, ho]; exact stepRefines_refl ts s.nodes
  | some o =>
      by_cases hts : o.ts = ts
      · simp only [processOctant, ho, if_pos hts]; exact stepRefines_refl ts s.nodes
      · cases hp : o.parent with
        | none =>
            simp only [processOctant, ho, if_neg hts, hp]
            exact stepRefines_refl ts s.nodes
        | some par =>
            by_cases hcond : (propagateToParentNode s.nodes i ts).2.observed = true ∧
                100 * fieldVal (propagateToParentNode s.nodes i ts).2 ≤ 95 * mo
            · have he : (processOctant mo ts d s i).nodes =
                  deleteChildrenAll (propagateToParentNode s.nodes i ts).1 i := by
                simp only [processOctant, ho, if_neg hts, hp, if_pos hcond]
              rw [he]
              exact stepRefines_trans ts s.nodes _ _
                (stepRefines_propagateToParentNode ts s.nodes i)
                (stepRefines_deleteChildrenAll ts _ i)
            · have he : (processOctant mo ts d s i).nodes =
                  (propagateToParentNode s.nodes i ts).1 := by
                simp only [processOctant, ho, if_neg hts, hp, if_neg hcond]
              rw [he]
              exact stepRefines_propagateToParentNode ts s.nodes i

/-- Helper: a fold of sweep-loop bodies is a refining step. -/
theorem stepRefines_foldl_processOctant (mo ts : ℤ) (d : ℕ) (l : List ℕ) :
    ∀ s : PState, StepRefines ts s.nodes (l.foldl (processOctant mo ts d) s).nodes := by
  induction l with
  | nil => intro s; exact stepRefines_refl ts s.nodes
  | cons a rest ih =>
      intro s
      exact stepRefines_trans ts s.nodes (processOctant mo ts d s a).nodes _
        (stepRefines_processOctant mo ts d s a) (ih _)

/-- Helper: one full depth of the sweep is a refining step. -/
theorem stepRefines_sweepDepth (mo ts : ℤ) (d : ℕ) (s : PState) :
    StepRefines ts s.nodes (sweepDepth mo ts d s).nodes :=
  stepRefines_foldl_processOctant mo ts d _ s

/-- Helper: the whole depth loop is a refining step. -/
theorem stepRefines_sweepDepths (mo ts : ℤ) :
    ∀ (D : ℕ) (s : PState), StepRefines ts s.nodes (sweepDepths mo ts D s).nodes := by
  intro D
  induction D with
  | zero => intro s; exact stepRefines_refl ts s.nodes
  | succ n ih =>
      intro s
      exact stepRefines_trans ts s.nodes (sweepDepth mo ts (n + 1) s).nodes _
        (stepRefines_sweepDepth mo ts (n + 1) s) (ih _)

/-- Helper: the final root propagation is a refining step. -/
theorem stepRefines_rootPropagate (ts : ℤ) (root : ℕ) (s : PState) :
    StepRefines ts s.nodes (rootPropagate ts root s).nodes :=
  stepRefines_propagateToParentNode ts s.nodes root

/-- Helper: a fold whose every step fixes the accumulator is the identity. -/
theorem foldl_fix {α β : Type} (f : α → β → α) :
    ∀ (l : List β) (a : α), (∀ b ∈ l, f a b = a) → l.foldl f a = a := by
  intro l
  induction l with
  | nil => intro a _; rfl
  | cons x xs ih =>
      intro a h
      rw [List.foldl_cons, h x (List.mem_cons_self x xs)]
      exact ih a (fun b hb => h b (List.mem_cons_of_mem x hb))

/-- Helper: `List.all` only depends on the values on members. -/
theorem all_congr_mem {α : Type} (l : List α) (f g : α → Bool)
    (h : ∀ x ∈ l, f x = g x) : l.all f = l.all g := by
  induction l with
  | nil => rfl
  | cons x xs ih =>
      simp only [List.all_cons, h x (List.mem_cons_self x xs),
        ih (fun b hb => h b (List.mem_cons_of_mem x hb))]

/-- Helper: a value held in a child slot is collected by `filterMap id`. -/
theorem mem_filterMap_id_of_mem (l : List (Option ℕ)) (c : ℕ) (h : some c ∈ l) :
    c ∈ l.filterMap id :=
  List.mem_filterMap.mpr ⟨some c, h, rfl⟩

/-- Helper: the inserted id is in the set afterwards. -/
theorem mem_setInsert_self (l : List ℕ) (i : ℕ) : i ∈ setInsert l i := by
  rw [setInsert]
  split
  · assumption
  · exact List.mem_append_right l (List.mem_singleton.mpr rfl)

/-- Helper: `setInsert` keeps previous members. -/
theorem mem_setInsert_of_mem (l : List ℕ) (i x : ℕ) (h : x ∈ l) : x ∈ setInsert l i := by
  rw [setInsert]
  split
  · exact h
  · exact List.mem_append_left _ h

/-- Helper: inserting a present id is a no-op (std::set semantics). -/
theorem setInsert_of_mem (l : List ℕ) (i : ℕ) (h : i ∈ l) : setInsert l i = l := by
  rw [setInsert, if_pos h]

/-- Helper: rewriting an entry of a list with its own value is the identity. -/
theorem set_getD_self (ns : List (List ℕ)) (d : ℕ) (hd : d < ns.length) :
    ns.set d (ns.getD d []) = ns := by
  rw [List.getD_eq_getElem ns [] hd]
  apply List.ext_getElem?
  intro n
  by_cases hn : n = d
  · subst hn
    simp [List.getElem?_set_self, hd, List.getElem?_eq_getElem hd]
  · rw [List.getElem?_set_ne (fun he => hn he.symm)]

/-- Helper: `setInsertAt` preserves the number of depth levels. -/
theorem length_setInsertAt (ns : List (List ℕ)) (d : ℕ) (i : ℕ) :
    (setInsertAt ns d i).length = ns.length := by
  rw [setInsertAt, List.length_set]

/-- Helper: `setInsertAt` leaves every other depth untouched. -/
theorem getD_setInsertAt_ne (ns : List (List ℕ)) (d j : ℕ) (i : ℕ) (hj : j ≠ d) :
    (setInsertAt ns d i).getD j [] = ns.getD j [] := by
  rw [setInsertAt, List.getD, List.getD, List.get?_eq_getElem?, List.get?_eq_getElem?,
    List.getElem?_set_ne (fun he => hj he.symm)]
  rw [List.getD, List.get?_eq_getElem?]

/-- Helper: the touched depth after `setInsertAt`, in range. -/
theorem getD_setInsertAt_self (ns : List (List ℕ)) (d : ℕ) (i : ℕ) (hd : d < ns.length) :
    (setInsertAt ns d i).getD d [] = setInsert (ns.getD d []) i := by
  rw [setInsertAt, List.getD, List.get?_eq_getElem?]
  simp [List.getElem?_set_self, hd]

/-- Helper: `setInsertAt` keeps previous members at every depth. -/
theorem mem_getD_setInsertAt (ns : List (List ℕ)) (d j : ℕ) (i x : ℕ)
    (h : x ∈ ns.getD j []) : x ∈ (setInsertAt ns d i).getD j [] := by
  by_cases hj : j = d
  · subst hj
    by_cases hd : j < ns.length
    · rw [getD_setInsertAt_self ns j i hd]
      exact mem_setInsert_of_mem _ i x h
    · rw [setInsertAt, List.set_eq_of_length_le (le_of_not_lt hd)]
      exact h
  · rw [getD_setInsertAt_ne ns d j i hj]
    exact h

/-- Helper: an in-range insertion is recorded at its depth. -/
theorem mem_getD_setInsertAt_self (ns : List (List ℕ)) (d : ℕ) (i : ℕ)
    (hd : d < ns.length) : i ∈ (setInsertAt ns d i).getD d [] := by
  rw [getD_setInsertAt_self ns d i hd]
  exact mem_setInsert_self _ i

/-- Helper: inserting an already recorded id is the identity. -/
theorem setInsertAt_id_of_mem (ns : List (List ℕ)) (d : ℕ) (i : ℕ)
    (h : i ∈ ns.getD d []) : setInsertAt ns d i = ns := by
  by_cases hd : d < ns.length
  · rw [setInsertAt, setInsert_of_mem _ _ h]
    exact set_getD_self ns d hd
  · rw [setInsertAt, List.set_eq_of_length_le (le_of_not_lt hd)]

/-- Helper: inserting past the allocated depth range is the identity. -/
theorem setInsertAt_id_of_len (ns : List (List ℕ)) (d : ℕ) (i : ℕ)
    (h : ns.length ≤ d) : setInsertAt ns d i = ns := by
  rw [setInsertAt, List.set_eq_of_length_le h]

/-- Helper: a fold of seeding insertions preserves the number of depths. -/
theorem length_foldl_setInsertAt (d : ℕ) (l : List ℕ) :
    ∀ ns : List (List ℕ), (l.foldl (fun ns p => setInsertAt ns d p) ns).length = ns.length := by
  induction l with
  | nil => intro ns; rfl
  | cons a rest ih =>
      intro ns
      rw [List.foldl_cons, ih, length_setInsertAt]

/-- Helper: a fold of seeding insertions keeps previous members. -/
theorem mem_getD_foldl_setInsertAt_mono (d j : ℕ) (l : List ℕ) :
    ∀ (ns : List (List ℕ)) (x : ℕ), x ∈ ns.getD j [] →
      x ∈ (l.foldl (fun ns p => setInsertAt ns d p) ns).getD j [] := by
  induction l with
  | nil => intro ns x h; exact h
  | cons a rest ih =>
      intro ns x h
      rw [List.foldl_cons]
      exact ih _ x (mem_getD_setInsertAt ns d j a x h)

/-- Helper: an in-range seeding fold records every seeded id at its depth. -/
theorem mem_getD_foldl_setInsertAt (d : ℕ) (l : List ℕ) :
    ∀ (ns : List (List ℕ)) (p : ℕ), p ∈ l → d < ns.length →
      p ∈ (l.foldl (fun ns p => setInsertAt ns d p) ns).getD d [] := by
  induction l with
  | nil => intro ns p h _; simp at h
  | cons a rest ih =>
      intro ns p h hd
      rw [List.foldl_cons]
      rcases List.mem_cons.mp h with h1 | h1
      · subst h1
        exact mem_getD_foldl_setInsertAt_mono d d rest _ p
          (mem_getD_setInsertAt_self ns d p hd)
      · exact ih _ p h1 (by rw [length_setInsertAt]; exact hd)

/-- Helper: the node set after one sweep-loop body is either unchanged or has
one parent inserted one depth up. -/
theorem processOctant_node_set_cases (mo ts : ℤ) (d : ℕ) (s : PState) (i : ℕ) :
    (processOctant mo ts d s i).node_set = s.node_set ∨
    ∃ p, (processOctant mo ts d s i).node_set = setInsertAt s.node_set (d - 1) p := by
  cases ho : lookupOct s.nodes i with
  | none => left; simp only [processOctant, ho]
  | some o =>
      by_cases hts : o.ts = ts
      · left; simp only [processOctant, ho, if_pos hts]
      · cases hp : o.parent with
        | none => left; simp only [processOctant, ho, if_neg hts, hp]
        | some par =>
            right
            refine ⟨par, ?_⟩
            by_cases hcond : (propagateToParentNode s.nodes i ts).2.observed = true ∧
                100 * fieldVal (propagateToParentNode s.nodes i ts).2 ≤ 95 * mo
            · simp only [processOctant, ho, if_neg hts, hp, if_pos hcond]
            · simp only [processOctant, ho, if_neg hts, hp, if_neg hcond]

/-- Helper: one sweep-loop body preserves the number of depths. -/
theorem processOctant_node_set_length (mo ts : ℤ) (d : ℕ) (s : PState) (i : ℕ) :
    (processOctant mo ts d s i).node_set.length = s.node_set.length := by
  rcases processOctant_node_set_cases mo ts d s i with h | ⟨p, h⟩
  · rw [h]
  · rw [h, length_setInsertAt]

/-- Helper: one sweep-loop body changes the node set only one depth up. -/
theorem getD_processOctant_ne (mo ts : ℤ) (d : ℕ) (s : PState) (i j : ℕ) (hj : j ≠ d - 1) :
    (processOctant mo ts d s i).node_set.getD j [] = s.node_set.getD j [] := by
  rcases processOctant_node_set_cases mo ts d s i with h | ⟨p, h⟩
  · rw [h]
  · rw [h, getD_setInsertAt_ne _ _ _ _ hj]

/-- Helper: one sweep-loop body keeps previous node-set members. -/
theorem mem_getD_processOctant (mo ts : ℤ) (d : ℕ) (s : PState) (i j x : ℕ)
    (h : x ∈ s.node_set.getD j []) :
    x ∈ (processOctant mo ts d s i).node_set.getD j [] := by
  rcases processOctant_node_set_cases mo ts d s i with hc | ⟨p, hc⟩
  · rw [hc]; exact h
  · rw [hc]; exact mem_getD_setInsertAt _ _ _ _ _ h

/-- Helper: a fold of sweep-loop bodies preserves the number of depths. -/
theorem foldl_processOctant_node_set_length (mo ts : ℤ) (d : ℕ) (l : List ℕ) :
    ∀ s : PState, (l.foldl (processOctant mo ts d) s).node_set.length
      = s.node_set.length := by
  induction l with
  | nil => intro s; rfl
  | cons a rest ih =>
      intro s
      rw [List.foldl_cons, ih, processOctant_node_set_length]

/-- Helper: a fold of sweep-loop bodies changes the node set only one depth
up. -/
theorem getD_foldl_processOctant_ne (mo ts : ℤ) (d : ℕ) (l : List ℕ) (j : ℕ)
    (hj : j ≠ d - 1) :
    ∀ s : PState, (l.foldl (processOctant mo ts d) s).node_set.getD j []
      = s.node_set.getD j [] := by
  induction l with
  | nil => intro s; rfl
  | cons a rest ih =>
      intro s
      rw [List.foldl_cons, ih, getD_processOctant_ne mo ts d s a j hj]

/-- Helper: a fold of sweep-loop bodies keeps previous node-set members. -/
theorem mem_getD_foldl_processOctant (mo ts : ℤ) (d : ℕ) (l : List ℕ) (j x : ℕ) :
    ∀ s : PState, x ∈ s.node_set.getD j [] →
      x ∈ (l.foldl (processOctant mo ts d) s).node_set.getD j [] := by
  induction l with
  | nil => intro s h; exact h
  | cons a rest ih =>
      intro s h
      rw [List.foldl_cons]
      exact ih _ (mem_getD_processOctant mo ts d s a j x h)

/-- Helper: the depth loop preserves the number of depths. -/
theorem sweepDepths_node_set_length (mo ts : ℤ) :
    ∀ (D : ℕ) (s : PState),
      (sweepDepths mo ts D s).node_set.length = s.node_set.length := by
  intro D
  induction D with
  | zero => intro s; rfl
  | succ n ih =>
      intro s
      simp only [sweepDepths]
      rw [ih, sweepDepth]
      exact foldl_processOctant_node_set_length mo ts (n + 1) _ s

/-- Helper: the depth loop never touches node sets at its own depth or
deeper. -/
theorem getD_sweepDepths_ge (mo ts : ℤ) :
    ∀ (D j : ℕ), D ≤ j → ∀ s : PState,
      (sweepDepths mo ts D s).node_set.getD j [] = s.node_set.getD j [] := by
  intro D
  induction D with
  | zero => intro j _ s; rfl
  | succ n ih =>
      intro j hj s
      simp only [sweepDepths]
      rw [ih j (by omega), sweepDepth]
      exact getD_foldl_processOctant_ne mo ts (n + 1) _ j (by omega) s

/-- Helper: the depth loop keeps previous node-set members. -/
theorem mem_getD_sweepDepths (mo ts : ℤ) :
    ∀ (D : ℕ) (s : PState) (j x : ℕ), x ∈ s.node_set.getD j [] →
      x ∈ (sweepDepths mo ts D s).node_set.getD j [] := by
  intro D
  induction D with
  | zero => intro s j x h; exact h
  | succ n ih =>
      intro s j x h
      simp only [sweepDepths]
      apply ih
      rw [sweepDepth]
      exact mem_getD_foldl_processOctant mo ts (n + 1) _ j x s h

/-- Helper: the timestamp guard (and the dangling-id and root guards) make
the sweep-loop body skip an inert octant without changing the state. -/
theorem processOctant_id_of_inert (mo ts : ℤ) (d : ℕ) (s : PState) (i : ℕ)
    (h : InertOct ts s.nodes i) : processOctant mo ts d s i = s := by
  cases ho : lookupOct s.nodes i with
  | none => simp only [processOctant, ho]
  | some o =>
      by_cases hts : o.ts = ts
      · simp only [processOctant, ho, if_pos hts]
      · rcases h o ho with h1 | h1
        · exact absurd h1 hts
        · simp only [processOctant, ho, if_neg hts, h1]

/-- Helper: after the sweep-loop body runs on an octant, that octant is inert
(it was either skipped while already inert, or stamped with the frame
timestamp, or its record survives only with the stamp). -/
theorem processOctant_inert_after (mo ts : ℤ) (d : ℕ) (s : PState) (i : ℕ) :
    InertOct ts (processOctant mo ts d s i).nodes i := by
  cases ho : lookupOct s.nodes i with
  | none =>
      have he : processOctant mo ts d s i = s := by simp only [processOctant, ho]
      rw [he]
      intro o h
      rw [ho] at h
      exact Option.noConfusion h
  | some o =>
      by_cases hts : o.ts = ts
      · have he : processOctant mo ts d s i = s := by
          simp only [processOctant, ho, if_pos hts]
        rw [he]
        intro r hr
        rw [ho] at hr
        injection hr with hr
        subst hr
        exact Or.inl hts
      · cases hp : o.parent with
        | none =>
            have he : processOctant mo ts d s i = s := by
              simp only [processOctant, ho, if_neg hts, hp]
            rw [he]
            intro r hr
            rw [ho] at hr
            injection hr with hr
            subst hr
            exact Or.inr hp
        | some par =>
            obtain ⟨o2, hpr, _, _, hts2, _⟩ :=
              propagateToParentNode_shape s.nodes i ts o ho
            have hinert1 : InertOct ts (propagateToParentNode s.nodes i ts).1 i := by
              intro r hr
              rw [hpr, lookupOct_updateOct_self s.nodes i o2 o ho] at hr
              injection hr with hr
              subst hr
              exact Or.inl hts2
            by_cases hcond : (propagateToParentNode s.nodes i ts).2.observed = true ∧
                100 * fieldVal (propagateToParentNode s.nodes i ts).2 ≤ 95 * mo
            · have he : (processOctant mo ts d s i).nodes =
                  deleteChildrenAll (propagateToParentNode s.nodes i ts).1 i := by
                simp only [processOctant, ho, if_neg hts, hp, if_pos hcond]
              rw [he]
              exact inert_of_stepRefines ts _ _ i hinert1
                (stepRefines_deleteChildrenAll ts _ i)
            · have he : (processOctant mo ts d s i).nodes =
                  (propagateToParentNode s.nodes i ts).1 := by
                simp only [processOctant, ho, if_neg hts, hp, if_neg hcond]
              rw [he]
              exact hinert1

/-- Helper: every octant processed by a fold of sweep-loop bodies is inert
afterwards. -/
theorem foldl_processOctant_inerts (mo ts : ℤ) (d : ℕ) (l : List ℕ) :
    ∀ (s : PState) (i : ℕ), i ∈ l →
      InertOct ts (l.foldl (processOctant mo ts d) s).nodes i := by
  induction l with
  | nil => intro s i h; simp at h
  | cons a rest ih =>
      intro s i h
      rw [List.foldl_cons]
      rcases List.mem_cons.mp h with h1 | h1
      · subst h1
        exact inert_of_stepRefines ts _ _ i
          (processOctant_inert_after mo ts d s i)
          (stepRefines_foldl_processOctant mo ts d rest _)
      · exact ih _ i h1

/-- Helper: after the depth loop, every octant recorded in a node set at a
swept depth is inert — it has been up-propagated and stamped (or deleted). -/
theorem sweepDepths_establishes (mo ts : ℤ) :
    ∀ (D : ℕ) (st : PState) (d : ℕ), 1 ≤ d → d ≤ D →
      ∀ i ∈ (sweepDepths mo ts D st).node_set.getD d [],
        InertOct ts (sweepDepths mo ts D st).nodes i := by
  intro D
  induction D with
  | zero => intro st d h1 h2; exact absurd (h1.trans h2) (by decide)
  | succ n ih =>
      intro st d h1 h2 i hi
      simp only [sweepDepths] at hi ⊢
      by_cases hd : d ≤ n
      · exact ih (sweepDepth mo ts (n + 1) st) d h1 hd i hi
      · have hdn : d = n + 1 := by omega
        subst hdn
        rw [getD_sweepDepths_ge mo ts n (n + 1) (Nat.le_succ n) _] at hi
        rw [show (sweepDepth mo ts (n + 1) st).node_set.getD (n + 1) []
            = st.node_set.getD (n + 1) [] from by
          rw [sweepDepth]
          exact getD_foldl_processOctant_ne mo ts (n + 1) _ (n + 1) (by omega) st] at hi
        have hin1 : InertOct ts (sweepDepth mo ts (n + 1) st).nodes i := by
          rw [sweepDepth]
          exact foldl_processOctant_inerts mo ts (n + 1) _ st i hi
        exact inert_of_stepRefines ts _ _ i hin1 (stepRefines_sweepDepths mo ts n _)

/-- Helper: a sweep over inert octants is the identity. -/
theorem sweepDepth_id_of_inert (mo ts : ℤ) (d : ℕ) (s : PState)
    (h : ∀ i ∈ s.node_set.getD d [], InertOct ts s.nodes i) :
    sweepDepth mo ts d s = s := by
  rw [sweepDepth]
  exact foldl_fix _ _ s (fun i hi => processOctant_id_of_inert mo ts d s i (h i hi))

/-- Helper: the whole depth loop is the identity when every recorded octant
at the swept depths is inert. -/
theorem sweepDepths_id_of_inert (mo ts : ℤ) :
    ∀ (D : ℕ) (s : PState),
      (∀ d, 1 ≤ d → d ≤ D → ∀ i ∈ s.node_set.getD d [], InertOct ts s.nodes i) →
      sweepDepths mo ts D s = s := by
  intro D
  induction D with
  | zero => intro s _; rfl
  | succ n ih =>
      intro s h
      have h1 : sweepDepth mo ts (n + 1) s = s :=
        sweepDepth_id_of_inert mo ts (n + 1) s (h (n + 1) (by omega) (le_refl _))
      simp only [sweepDepths, h1]
      exact ih s (fun d hd1 hd2 => h d hd1 (hd2.trans (Nat.le_succ n)))

/-- Helper: computation rule of `propagateToParentNode` for a childless
reduction list. -/
theorem pp_eq_nil (m : OctMap) (i : ℕ) (ts : ℤ) (o : POctant)
    (ho : lookupOct m i = some o)
    (hcs : (o.children.filterMap id).filterMap
        (fun c => (lookupOct m c).map (fun x => (x.minD, x.maxD))) = []) :
    (propagateToParentNode m i ts).1 = updateOct m i { o with ts := ts } := by
  simp only [propagateToParentNode, ho, hcs]

/-- Helper: computation rule of `propagateToParentNode` for a non-empty
reduction list. -/
theorem pp_eq_cons (m : OctMap) (i : ℕ) (ts : ℤ) (o : POctant)
    (c0 : OccData × OccData) (rest : List (OccData × OccData))
    (ho : lookupOct m i = some o)
    (hcs : (o.children.filterMap id).filterMap
        (fun c => (lookupOct m c).map (fun x => (x.minD, x.maxD))) = c0 :: rest) :
    (propagateToParentNode m i ts).1 = updateOct m i (ppReduced m o c0 rest ts) := by
  simp only [propagateToParentNode, ho, hcs, ppReduced]

/-- Helper: `propagateToParentNode` is idempotent on an octant that is not
its own child — the second pass reduces the same child data and rewrites the
same record. -/
theorem pp_idem (m : OctMap) (i : ℕ) (ts : ℤ)
    (h : ∀ o, lookupOct m i = some o → i ∉ o.children.filterMap id) :
    (propagateToParentNode (propagateToParentNode m i ts).1 i ts).1 =
      (propagateToParentNode m i ts).1 := by
  cases ho : lookupOct m i with
  | none =>
      have h1 : (propagateToParentNode m i ts).1 = m := by
        simp only [propagateToParentNode, ho]
      rw [h1]
      exact h1
  | some o =>
      have hni := h o ho
      have hlkc : ∀ c ∈ o.children.filterMap id, ∀ r : POctant,
          lookupOct (updateOct m i r) c = lookupOct m c := by
        intro c hc r
        exact lookupOct_updateOct_ne m i c r (fun he => hni (he ▸ hc))
      cases hcs : (o.children.filterMap id).filterMap
          (fun c => (lookupOct m c).map (fun x => (x.minD, x.maxD))) with
      | nil =>
          rw [pp_eq_nil m i ts o ho hcs]
          have hlk : lookupOct (updateOct m i { o with ts := ts }) i =
              some { o with ts := ts } :=
            lookupOct_updateOct_self m i _ o ho
          have hcs2 : (({ o with ts := ts } : POctant).children.filterMap id).filterMap
              (fun c => (lookupOct (updateOct m i { o with ts := ts }) c).map
                (fun x => (x.minD, x.maxD))) = [] := by
            have hch : ({ o with ts := ts } : POctant).children = o.children := rfl
            rw [hch, List.filterMap_congr (fun c hc => by rw [hlkc c hc])]
            exact hcs
          rw [pp_eq_nil _ i ts _ hlk hcs2]
          exact updateOct_lookup_self_eq _ i _ hlk
      | cons c0 rest =>
          rw [pp_eq_cons m i ts o c0 rest ho hcs]
          have hlk : lookupOct (updateOct m i (ppReduced m o c0 rest ts)) i =
              some (ppReduced m o c0 rest ts) :=
            lookupOct_updateOct_self m i _ o ho
          have hch : (ppReduced m o c0 rest ts).children = o.children := rfl
          have hcs2 : ((ppReduced m o c0 rest ts).children.filterMap id).filterMap
              (fun c => (lookupOct (updateOct m i (ppReduced m o c0 rest ts)) c).map
                (fun x => (x.minD, x.maxD))) = c0 :: rest := by
            rw [hch, List.filterMap_congr (fun c hc => by rw [hlkc c hc])]
            exact hcs
          rw [pp_eq_cons _ i ts _ c0 rest hlk hcs2]
          have hobsmin : ∀ slot ∈ o.children,
              childObservedMin (updateOct m i (ppReduced m o c0 rest ts)) slot
                = childObservedMin m slot := by
            intro slot hs
            cases slot with
            | none => rfl
            | some cid =>
                simp only [childObservedMin,
                  hlkc cid (mem_filterMap_id_of_mem _ _ hs) (ppReduced m o c0 rest ts)]
          have hobsmax : ∀ slot ∈ o.children,
              childObservedMax (updateOct m i (ppReduced m o c0 rest ts)) slot
                = childObservedMax m slot := by
            intro slot hs
            cases slot with
            | none => rfl
            | some cid =>
                simp only [childObservedMax,
                  hlkc cid (mem_filterMap_id_of_mem _ _ hs) (ppReduced m o c0 rest ts)]
          have hpr : ppReduced (updateOct m i (ppReduced m o c0 rest ts))
              (ppReduced m o c0 rest ts) c0 rest ts = ppReduced m o c0 rest ts := by
            simp only [ppReduced] at hobsmin hobsmax ⊢
            rw [all_congr_mem _ _ _ hobsmin, all_congr_mem _ _ _ hobsmax]
          rw [hpr]
          exact updateOct_lookup_self_eq _ i _ hlk

/-- Helper: `propagateToRoot` unfolded into its three phases. -/
theorem propagateToRoot_eq (mo ts : ℤ) (bd root : ℕ) (bl : List ℕ) (t : PState) :
    propagateToRoot mo ts bd root bl t =
      rootPropagate ts root (sweepDepths mo ts (bd - 1) (prSeed bd bl t)) := rfl

/-- Helper: seeding only touches the node sets. -/
theorem prSeed_nodes (bd : ℕ) (bl : List ℕ) (t : PState) :
    (prSeed bd bl t).nodes = t.nodes := rfl

/-- Helper: the final root propagation only touches the octant map. -/
theorem rootPropagate_node_set (ts : ℤ) (root : ℕ) (t : PState) :
    (rootPropagate ts root t).node_set = t.node_set := rfl

/-- Helper: the octant map after the final root propagation. -/
theorem rootPropagate_nodes (ts : ℤ) (root : ℕ) (t : PState) :
    (rootPropagate ts root t).nodes = (propagateToParentNode t.nodes root ts).1 := rfl

/-- Helper: block parents read off a refined octant map were already parents
in the original map (records are only dropped, and a surviving record keeps
its parent pointer). -/
theorem mem_prParents_of_refines (ts : ℤ) (bl : List ℕ) (t t2 : PState)
    (hr : StepRefines ts t.nodes t2.nodes) :
    ∀ p ∈ prParents t2 bl, p ∈ prParents t bl := by
  intro p hp
  rw [prParents, List.mem_filterMap] at hp ⊢
  obtain ⟨bid, hbid, hbp⟩ := hp
  cases hlk : lookupOct t2.nodes bid with
  | none =>
      rw [hlk] at hbp
      exact absurd hbp (by simp)
  | some o2 =>
      rw [hlk] at hbp
      simp only [Option.some_bind] at hbp
      obtain ⟨o, ho, hpar, _, _⟩ := hr bid o2 hlk
      refine ⟨bid, hbid, ?_⟩
      rw [ho]
      simp only [Option.some_bind]
      rw [← hpar]
      exact hbp

/-- Helper: a whole run of `propagateToRoot` is a refining step on the octant
map. -/
theorem stepRefines_propagateToRoot (mo ts : ℤ) (bd root : ℕ) (bl : List ℕ)
    (t : PState) :
    StepRefines ts t.nodes (propagateToRoot mo ts bd root bl t).nodes := by
  rw [propagateToRoot_eq]
  have h1 : StepRefines ts t.nodes
      (sweepDepths mo ts (bd - 1) (prSeed bd bl t)).nodes := by
    have h0 := stepRefines_sweepDepths mo ts (bd - 1) (prSeed bd bl t)
    rw [prSeed_nodes] at h0
    exact h0
  exact stepRefines_trans ts _ _ _ h1 (stepRefines_rootPropagate ts root _)

/-- C7: running the bottom-up propagation a second time within the same frame
(same timestamp) without intervening integration changes nothing — the second
`propagateToRoot` returns the state produced by the first one unchanged — and
the mechanism is the timestamp guard: the sweep-loop body skips any octant
already stamped with the current frame timestamp without modifying the state.
The only assumption is that the root octant of the starting map is not listed
among its own children. -/
theorem c7_propagate_idempotent (mo ts : ℤ) (bd root : ℕ) (bl : List ℕ) (s : PState)
    (hroot : ∀ o, lookupOct s.nodes root = some o → root ∉ o.children.filterMap id) :
    propagateToRoot mo ts bd root bl (propagateToRoot mo ts bd root bl s) =
      propagateToRoot mo ts bd root bl s ∧
    (∀ (s2 : PState) (d i : ℕ) (o : POctant), lookupOct s2.nodes i = some o →
      o.ts = ts → processOctant mo ts d s2 i = s2) := by
  constructor
  · have hrefZ : StepRefines ts s.nodes
        (sweepDepths mo ts (bd - 1) (prSeed bd bl s)).nodes := by
      have h0 := stepRefines_sweepDepths mo ts (bd - 1) (prSeed bd bl s)
      rw [prSeed_nodes] at h0
      exact h0
    have href : StepRefines ts s.nodes (propagateToRoot mo ts bd root bl s).nodes :=
      stepRefines_propagateToRoot mo ts bd root bl s
    have hns' : (propagateToRoot mo ts bd root bl s).node_set =
        (sweepDepths mo ts (bd - 1) (prSeed bd bl s)).node_set := rfl
    have hlen' : (propagateToRoot mo ts bd root bl s).node_set.length
        = s.node_set.length := by
      rw [hns', sweepDepths_node_set_length]
      exact length_foldl_setInsertAt (bd - 1) (prParents s bl) s.node_set
    have hinert : ∀ d, 1 ≤ d → d ≤ bd - 1 →
        ∀ i ∈ (propagateToRoot mo ts bd root bl s).node_set.getD d [],
          InertOct ts (propagateToRoot mo ts bd root bl s).nodes i := by
      intro d h1 h2 i hi
      rw [hns'] at hi
      have hi2 := sweepDepths_establishes mo ts (bd - 1) (prSeed bd bl s) d h1 h2 i hi
      exact inert_of_stepRefines ts _ _ i hi2 (stepRefines_rootPropagate ts root _)
    have hmem : bd - 1 < s.node_set.length → ∀ p ∈ prParents s bl,
        p ∈ (propagateToRoot mo ts bd root bl s).node_set.getD (bd - 1) [] := by
      intro hlt p hp
      rw [hns']
      apply mem_getD_sweepDepths
      exact mem_getD_foldl_setInsertAt (bd - 1) (prParents s bl) s.node_set p hp hlt
    have hseed2 : prSeed bd bl (propagateToRoot mo ts bd root bl s)
        = propagateToRoot mo ts bd root bl s := by
      have hfold : (prParents (propagateToRoot mo ts bd root bl s) bl).foldl
          (fun ns p => setInsertAt ns (bd - 1) p)
          (propagateToRoot mo ts bd root bl s).node_set
          = (propagateToRoot mo ts bd root bl s).node_set := by
        apply foldl_fix
        intro p hp
        by_cases hlt : bd - 1 < s.node_set.length
        · exact setInsertAt_id_of_mem _ _ _
            (hmem hlt p (mem_prParents_of_refines ts bl s _ href p hp))
        · exact setInsertAt_id_of_len _ _ _ (by rw [hlen']; omega)
      rw [prSeed, hfold]
    have hsweep2 : sweepDepths mo ts (bd - 1) (propagateToRoot mo ts bd root bl s)
        = propagateToRoot mo ts bd root bl s :=
      sweepDepths_id_of_inert mo ts (bd - 1) _ hinert
    have hroot2 : rootPropagate ts root (propagateToRoot mo ts bd root bl s)
        = propagateToRoot mo ts bd root bl s := by
      have hrid : (propagateToParentNode
          (propagateToRoot mo ts bd root bl s).nodes root ts).1
          = (propagateToRoot mo ts bd root bl s).nodes := by
        have hzn : (propagateToRoot mo ts bd root bl s).nodes =
            (propagateToParentNode
              (sweepDepths mo ts (bd - 1) (prSeed bd bl s)).nodes root ts).1 := rfl
        rw [hzn]
        refine pp_idem _ root ts (fun o hoz hmemc => ?_)
        obtain ⟨o0, ho0, _, _, hc⟩ := hrefZ root o hoz
        exact hroot o0 ho0 (hc root hmemc)
      rw [rootPropagate, hrid]
    calc propagateToRoot mo ts bd root bl (propagateToRoot mo ts bd root bl s)
        = rootPropagate ts root (sweepDepths mo ts (bd - 1)
            (prSeed bd bl (propagateToRoot mo ts bd root bl s))) :=
          propagateToRoot_eq mo ts bd root bl (propagateToRoot mo ts bd root bl s)
      _ = rootPropagate ts root (sweepDepths mo ts (bd - 1)
            (propagateToRoot mo ts bd root bl s)) := by rw [hseed2]
      _ = rootPropagate ts root (propagateToRoot mo ts bd root bl s) := by rw [hsweep2]
      _ = propagateToRoot mo ts bd root bl s := hroot2
  · intro s2 d i o ho hts
    simp only [processOctant, ho, if_pos hts]

/-- Witness for C7: a concrete lone-root state on which repeating the
propagation is observed to be the identity, with the hypothesis discharged by
evaluation. -/
theorem c7_propagate_idempotent_witness :
    propagateToRoot 0 7 1 0 [] (propagateToRoot 0 7 1 0 [] c7DemoState) =
      propagateToRoot 0 7 1 0 [] c7DemoState ∧
    (∀ (s2 : PState) (d i : ℕ) (o : POctant), lookupOct s2.nodes i = some o →
      o.ts = 7 → processOctant 0 7 d s2 i = s2) :=
  c7_propagate_idempotent 0 7 1 0 [] c7DemoState (fun o h => by
    have h0 : lookupOct c7DemoState.nodes 0 = some
        { parent := none, children := List.replicate 8 none,
          minD := defaultOccData, maxD := defaultOccData, ts := 0 } := rfl
    rw [h0] at h
    injection h with h
    subst h
    decide)

end SE2
